import Mathlib

/-!
Verification development for the pest-based line calculator
(`src/7_calculator/calculator/src/main.rs`).

The program reads lines from stdin; each line is matched against the pest
grammar `equation = SOI ~ expr ~ EOI` (with `WHITESPACE = " "` implicitly
skipped between tokens of non-atomic rules), the resulting flat pair stream
is folded into an `Expr` tree by a Pratt parser (`+`/`-` lowest, then
`*`/`/`/`%`, then prefix unary `-`, all infix left-associative), and the
tree is evaluated with Rust `i32` arithmetic.

Modelling notes:
* Machine integers are `Int` with explicit range checks against the signed
  32-bit bounds.
* Rust panics (division by zero, `i32` overflow under the default debug
  profile's checked arithmetic, and the `.unwrap()` on literal conversion
  in `parse_expr`) are modelled as `Except.error`; a panic unwinds out of
  `main`, so the line-processing loop (`runLines`) stops at the first
  panicking line. Division/remainder by zero and `i32::MIN / -1`,
  `i32::MIN % -1` panic in every build profile; add/subtract/multiply/negate
  overflow panics in the debug profile (release builds wrap instead).
* The pest grammar matcher is embedded as a fuelled PEG-style
  recursive-descent matcher over `List Char`, producing the same pair
  stream pest hands to `parse_expr` (silent rules `atom`, `bin_op`,
  `equation` are inlined; `integer` is atomic so no spaces may occur
  inside it; only the literal space character is skipped between tokens).
-/

/-- Signed 32-bit minimum, `i32::MIN`. -/
def i32Min : Int := -2147483648

/-- Signed 32-bit maximum, `i32::MAX`. -/
def i32Max : Int := 2147483647

/-- Whether `n` fits in Rust's `i32`. -/
def inRangeI32 (n : Int) : Bool := decide (i32Min ≤ n) && decide (n ≤ i32Max)

/-- The binary operator enum `OpType` of the source. -/
inductive OpType where
  | Add
  | Subtract
  | Multiply
  | Divide
  | Modulo
deriving DecidableEq

/-- The expression tree `Expr` of the source (`Integer`, `UnaryMinus`, `BinOp`). -/
inductive Expr where
  | Integer (value : Int)
  | UnaryMinus (e : Expr)
  | BinOp (lhs : Expr) (op : OpType) (rhs : Expr)
deriving DecidableEq

/-- Debug-profile checked `i32` result: panic (error) when out of range. -/
def checkedI32 (n : Int) (msg : String) : Except String Int :=
  if inRangeI32 n then .ok n else .error msg

/-- `Expr::evaluate` from the source: post-order evaluation with Rust `i32`
arithmetic; `/` is truncating division (`Int.tdiv`), `%` the matching
remainder (`Int.tmod`); panics are `Except.error` with Rust's panic text. -/
def Expr.evaluate : Expr → Except String Int
  | .Integer v => .ok v
  | .UnaryMinus e => do
      let v ← e.evaluate
      checkedI32 (-v) "attempt to negate with overflow"
  | .BinOp l op r => do
      let a ← l.evaluate
      let b ← r.evaluate
      match op with
      | .Add => checkedI32 (a + b) "attempt to add with overflow"
      | .Subtract => checkedI32 (a - b) "attempt to subtract with overflow"
      | .Multiply => checkedI32 (a * b) "attempt to multiply with overflow"
      | .Divide =>
          if b = 0 then .error "attempt to divide by zero"
          else if a = i32Min ∧ b = -1 then .error "attempt to divide with overflow"
          else checkedI32 (a.tdiv b) "attempt to divide with overflow"
      | .Modulo =>
          if b = 0 then .error "attempt to calculate the remainder with a divisor of zero"
          else if a = i32Min ∧ b = -1 then
            .error "attempt to calculate the remainder with overflow"
          else checkedI32 (a.tmod b) "attempt to calculate the remainder with overflow"

mutual

/-- One pest pair as handed to `parse_expr`: the non-silent rules
`integer`, `unary_minus`, `add`, `subtract`, `multiply`, `divide`,
`modulo`, and nested `expr` (whose children are again a flat pair list). -/
inductive Pair where
  | integer (s : String)
  | unaryMinus
  | add
  | subtract
  | multiply
  | divide
  | modulo
  | expr (inner : PairList)
deriving DecidableEq

/-- A flat sequence of pest pairs (a `Pairs` iterator of the source). -/
inductive PairList where
  | nil
  | cons (head : Pair) (tail : PairList)
deriving DecidableEq

end

/-- Concatenation of pair sequences. -/
def PairList.append : PairList → PairList → PairList
  | .nil, ys => ys
  | .cons x xs, ys => .cons x (xs.append ys)

/-- Build a pair sequence from a list literal (readability helper). -/
def pl : List Pair → PairList
  | [] => .nil
  | p :: ps => .cons p (pl ps)

mutual

/-- Structural weight of a pair (strings ignored): a fuel bound for the
Pratt parser. -/
def pairWeight : Pair → Nat
  | .expr inner => 1 + pairListWeight inner
  | _ => 1

/-- Total weight of a pair sequence. -/
def pairListWeight : PairList → Nat
  | .nil => 0
  | .cons p ps => pairWeight p + pairListWeight ps

end

/-- Digit-string value, `Nat` accumulator as in `str::parse`. -/
def digitsVal (cs : List Char) : Nat :=
  cs.foldl (fun acc c => acc * 10 + (c.toNat - 48)) 0

/-- Nonempty all-digit string (what the atomic `integer` rule matches). -/
def isDigitString (s : String) : Bool :=
  !s.data.isEmpty && s.data.all (·.isDigit)

/-- The digit part of `str::parse::<i32>`: one or more digits, signed value
in the signed 32-bit range. -/
def parseI32Digits (sign : Int) (ds : List Char) : Option Int :=
  if ds.isEmpty || !ds.all (·.isDigit) then none
  else
    let v : Int := sign * (digitsVal ds : Nat)
    if inRangeI32 v then some v else none

/-- Rust's `str::parse::<i32>`: optional sign, one or more digits, value in
the signed 32-bit range; `none` models `Err(ParseIntError)`. -/
def parseI32 (s : String) : Option Int :=
  match s.data with
  | '-' :: t => parseI32Digits (-1) t
  | '+' :: t => parseI32Digits 1 t
  | cs => parseI32Digits 1 cs

/-- Skip the implicit `WHITESPACE = _{ " " }`: only the literal space. -/
def skipSpaces : List Char → List Char
  | ' ' :: rest => skipSpaces rest
  | cs => cs

/-- Greedy maximal digit run (`ASCII_DIGIT+` inside the atomic `integer`). -/
def takeDigits : List Char → List Char × List Char
  | [] => ([], [])
  | c :: rest =>
      if c.isDigit then (c :: (takeDigits rest).1, (takeDigits rest).2)
      else ([], c :: rest)

/-- Match the atomic rule `integer = @{ ASCII_DIGIT+ }`. -/
def matchInteger (cs : List Char) : Option (Pair × List Char) :=
  match takeDigits cs with
  | ([], _) => none
  | (d :: ds, rest) => some (.integer (String.mk (d :: ds)), rest)

/-- Match `bin_op = _{ add | subtract | multiply | divide | modulo }`. -/
def matchBinOp : List Char → Option (Pair × List Char)
  | '+' :: r => some (.add, r)
  | '-' :: r => some (.subtract, r)
  | '*' :: r => some (.multiply, r)
  | '/' :: r => some (.divide, r)
  | '%' :: r => some (.modulo, r)
  | _ => none

mutual

/-- Match the primary part of `atom`: `integer | "(" ~ expr ~ ")"` (ordered
PEG choice; implicit spaces inside the parenthesised sequence). -/
def matchPrimary : Nat → List Char → Option (Pair × List Char)
  | 0, _ => none
  | fuel + 1, cs =>
      match matchInteger cs with
      | some (p, rest) => some (p, rest)
      | none =>
          match cs with
          | '(' :: cs1 =>
              match matchExprRule fuel (skipSpaces cs1) with
              | none => none
              | some (ps, cs2) =>
                  match skipSpaces cs2 with
                  | ')' :: cs3 => some (.expr ps, cs3)
                  | _ => none
          | _ => none

/-- Match `atom = _{ unary_minus? ~ (integer | "(" ~ expr ~ ")") }`; a
leading `-` is committed (PEG sequences do not backtrack into `?`). The
silent atom's children come back as a flat pair list. -/
def matchAtom : Nat → List Char → Option (PairList × List Char)
  | 0, _ => none
  | fuel + 1, cs =>
      match cs with
      | '-' :: cs1 =>
          match matchPrimary fuel (skipSpaces cs1) with
          | none => none
          | some (p, cs2) => some (.cons Pair.unaryMinus (.cons p .nil), cs2)
      | _ =>
          match matchPrimary fuel cs with
          | none => none
          | some (p, rest) => some (.cons p .nil, rest)

/-- Match the repetition `(bin_op ~ atom)*`: each iteration either matches
entirely or is rolled back, ending the repetition (PEG greedy star). -/
def matchOpAtoms : Nat → List Char → Option (PairList × List Char)
  | 0, _ => none
  | fuel + 1, cs =>
      match matchBinOp (skipSpaces cs) with
      | none => some (.nil, cs)
      | some (opP, cs1) =>
          match matchAtom fuel (skipSpaces cs1) with
          | none => some (.nil, cs)
          | some (aps, cs2) =>
              match matchOpAtoms fuel cs2 with
              | none => none
              | some (ps, cs3) => some (.cons opP (aps.append ps), cs3)

/-- Match `expr = { atom ~ (bin_op ~ atom)* }`, returning the flat pair
list that is `expr`'s children. -/
def matchExprRule : Nat → List Char → Option (PairList × List Char)
  | 0, _ => none
  | fuel + 1, cs =>
      match matchAtom fuel cs with
      | none => none
      | some (aps, cs1) =>
          match matchOpAtoms fuel cs1 with
          | none => none
          | some (ps, cs2) => some (aps.append ps, cs2)

end

/-- Match `equation = _{ SOI ~ expr ~ EOI }`: anchored at both ends, with
implicit spaces allowed before `expr` and before `EOI`. -/
def matchEquation (fuel : Nat) (cs : List Char) : Option PairList :=
  match matchExprRule fuel (skipSpaces cs) with
  | none => none
  | some (ps, cs1) =>
      match skipSpaces cs1 with
      | [] => some ps
      | _ => none

/-- `CalculatorParser::parse(Rule::equation, line)` followed by
`pairs.next().unwrap().into_inner()`: the children of the `expr` pair, or
`none` on a pest parse error. The fuel bound is generous: every four fuel
levels consume at least one character. -/
def calculatorParse (line : String) : Option PairList :=
  matchEquation (4 * line.length + 8) line.data

/-- The infix table of `PRATT_PARSER`: operator and precedence, lowest to
highest (`add`/`subtract` = 1, `multiply`/`divide`/`modulo` = 2), all
left-associative. -/
def opOf : Pair → Option (OpType × Nat)
  | .add => some (.Add, 1)
  | .subtract => some (.Subtract, 1)
  | .multiply => some (.Multiply, 2)
  | .divide => some (.Divide, 2)
  | .modulo => some (.Modulo, 2)
  | _ => none

/-- Binding power of the prefix `unary_minus`: declared after both infix
groups, so it binds tighter than every binary operator. -/
def unaryMinusPrec : Nat := 3

mutual

/-- One precedence-climbing step of `PRATT_PARSER.parse`: parse a primary
(with prefix handling) then fold infix operators of precedence ≥ `minPrec`. -/
def parseBp : Nat → Nat → PairList → Except String (Expr × PairList)
  | 0, _, _ => .error "pratt: out of fuel"
  | fuel + 1, minPrec, toks =>
      match parsePrimary fuel toks with
      | .error e => .error e
      | .ok (lhs, rest) => parseLoop fuel minPrec lhs rest

/-- `map_prefix`/`map_primary` of the source: a `unary_minus` pair parses
its operand at the prefix binding power and wraps it in `UnaryMinus`; an
`integer` pair is converted with `parse::<i32>().unwrap()` (panic on
overflow); a nested `expr` pair re-enters the whole Pratt parse on its
children; anything else is the source's `unreachable!`. -/
def parsePrimary : Nat → PairList → Except String (Expr × PairList)
  | 0, _ => .error "pratt: out of fuel"
  | fuel + 1, toks =>
      match toks with
      | .cons Pair.unaryMinus rest =>
          match parseBp fuel unaryMinusPrec rest with
          | .error e => .error e
          | .ok (e, rest') => .ok (.UnaryMinus e, rest')
      | .cons (Pair.integer s) rest =>
          match parseI32 s with
          | some v => .ok (.Integer v, rest)
          | none => .error "called Result::unwrap() on an Err value: ParseIntError"
      | .cons (Pair.expr inner) rest =>
          match parseAllFuel fuel inner with
          | .error e => .error e
          | .ok e => .ok (e, rest)
      | _ => .error "Expr::parse expected atom"

/-- The infix loop of precedence climbing: a left-associative operator of
precedence `p` parses its right operand with minimum precedence `p + 1`,
then folds into the left-hand side. -/
def parseLoop : Nat → Nat → Expr → PairList → Except String (Expr × PairList)
  | 0, _, _, _ => .error "pratt: out of fuel"
  | fuel + 1, minPrec, lhs, toks =>
      match toks with
      | .nil => .ok (lhs, .nil)
      | .cons t rest =>
          match opOf t with
          | some (op, p) =>
              if minPrec ≤ p then
                match parseBp fuel (p + 1) rest with
                | .error e => .error e
                | .ok (rhs, rest') => parseLoop fuel minPrec (.BinOp lhs op rhs) rest'
              else .ok (lhs, .cons t rest)
          | none => .ok (lhs, .cons t rest)

/-- A complete Pratt parse of one pair list (the body of `parse_expr`):
with grammar-produced input the stream is consumed exactly. -/
def parseAllFuel : Nat → PairList → Except String Expr
  | 0, _ => .error "pratt: out of fuel"
  | fuel + 1, toks =>
      match parseBp fuel 0 toks with
      | .error e => .error e
      | .ok (e, .nil) => .ok e
      | .ok (_, .cons _ _) => .error "Expr::parse expected infix operation"

end

/-- `parse_expr` of the source: the Pratt parse of `expr`'s children. The
fuel bound is generous: each fuel level of real work consumes pair weight. -/
def parse_expr (toks : PairList) : Except String Expr :=
  parseAllFuel (3 * pairListWeight toks + 8) toks

/-- Outcome of one iteration of `main`'s line loop. -/
inductive LineOutcome where
  | result (n : Int)
  | parseFailed
  | panicked (msg : String)
deriving DecidableEq

/-- One iteration of `main`'s loop on one input line: a pest error prints
`Parse failed: ...` on stderr and continues; otherwise `parse_expr` and
`evaluate` run, printing `Result: <n>` on success; a panic in either
aborts the process. -/
def processLine (line : String) : LineOutcome :=
  match calculatorParse line with
  | none => .parseFailed
  | some pairs =>
      match parse_expr pairs with
      | .error m => .panicked m
      | .ok e =>
          match e.evaluate with
          | .error m => .panicked m
          | .ok n => .result n

/-- `main`'s loop over the input lines: panics unwind out of `main`, so
processing stops at the first panicking line. -/
def runLines : List String → List LineOutcome
  | [] => []
  | l :: ls =>
      match processLine l with
      | .panicked m => [.panicked m]
      | o => o :: runLines ls

/-- The pair token of a binary operator (inverse direction of `opOf`). -/
def opPair : OpType → Pair
  | .Add => .add
  | .Subtract => .subtract
  | .Multiply => .multiply
  | .Divide => .divide
  | .Modulo => .modulo

/-- Precedence of a binary operator in `PRATT_PARSER` (lowest = 1). -/
def opPrec : OpType → Nat
  | .Add => 1
  | .Subtract => 1
  | .Multiply => 2
  | .Divide => 2
  | .Modulo => 2

/-- The evaluator tree computing `(a/b)*b + a%b` from `i32` literals. -/
def divmodTree (a b : Int) : Expr :=
  .BinOp (.BinOp (.BinOp (.Integer a) .Divide (.Integer b)) .Multiply (.Integer b)) .Add
    (.BinOp (.Integer a) .Modulo (.Integer b))

mutual

/-- Well-formedness of a pair as produced by the grammar matcher: every
`integer` pair holds a nonempty all-digit string (the atomic `integer`
rule matches bare digit runs, with no sign). -/
def Pair.good : Pair → Bool
  | .integer s => isDigitString s
  | .expr inner => PairList.good inner
  | _ => true

/-- Well-formedness of every pair in a sequence. -/
def PairList.good : PairList → Bool
  | .nil => true
  | .cons p ps => p.good && PairList.good ps

end

/-- Whether every `Integer` node of an expression tree is non-negative. -/
def Expr.nonnegLits : Expr → Bool
  | .Integer v => decide (0 ≤ v)
  | .UnaryMinus e => e.nonnegLits
  | .BinOp l _ r => l.nonnegLits && r.nonnegLits

/-- A lexical token of the grammar: a digit run (`num` keeps its first
character separate so the run is nonempty by construction), a parenthesis,
or one of the five operator characters. -/
inductive Tok where
  | num (d : Char) (ds : List Char)
  | lpar
  | rpar
  | plus
  | minus
  | star
  | slash
  | percent
deriving DecidableEq

/-- The characters a token renders to. -/
def Tok.chars : Tok → List Char
  | .num d ds => d :: ds
  | .lpar => ['(']
  | .rpar => [')']
  | .plus => ['+']
  | .minus => ['-']
  | .star => ['*']
  | .slash => ['/']
  | .percent => ['%']

/-- A well-formed token: a `num` holds only digits. -/
def Tok.goodTok : Tok → Bool
  | .num d ds => d.isDigit && ds.all (·.isDigit)
  | _ => true

/-- Whether a token is a digit run. -/
def Tok.isNum : Tok → Bool
  | .num _ _ => true
  | _ => false

/-- The `bin_op` pair a token matches as, if any. -/
def Tok.binPair : Tok → Option Pair
  | .plus => some .add
  | .minus => some .subtract
  | .star => some .multiply
  | .slash => some .divide
  | .percent => some .modulo
  | _ => none

/-- Two consecutive digit runs must be separated by at least one space,
or they would merge into a single `integer` token; any other pair of
tokens may be spaced arbitrarily (including not at all). -/
def sepOk (t1 : Tok) (k2 : Nat) (t2 : Tok) : Bool :=
  !(t1.isNum && t2.isNum) || decide (1 ≤ k2)

/-- The separation condition along a spaced token stream (each entry is
the number of spaces printed before that token). -/
def wellSep : List (Nat × Tok) → Bool
  | (_, t1) :: (k2, t2) :: rest => sepOk t1 k2 t2 && wellSep ((k2, t2) :: rest)
  | _ => true

/-- A well-formed spaced token stream: all tokens good, separation kept. -/
def goodToks (ss : List (Nat × Tok)) : Bool :=
  ss.all (fun x => x.2.goodTok) && wellSep ss

/-- Render a spaced token stream to characters: the given number of spaces
before each token, and `tr` trailing spaces at the end. -/
def render : List (Nat × Tok) → Nat → List Char
  | [], tr => List.replicate tr ' '
  | (k, t) :: rest, tr => List.replicate k ' ' ++ t.chars ++ render rest tr

/-- The remaining input starts with no digit (so a preceding digit run
cannot spill over): first token either spaced or not a digit run. -/
def numBoundaryOk : List (Nat × Tok) → Bool
  | (k, .num _ _) :: _ => decide (1 ≤ k)
  | _ => true

/-- The characters the grammar can consume: digits, the five operator
characters, parentheses, and the space skipped by `WHITESPACE`. -/
def isCalcChar (c : Char) : Bool :=
  c.isDigit || c = ' ' || c = '(' || c = ')' || c = '+' || c = '-' ||
    c = '*' || c = '/' || c = '%'

/-- Two spaced streams carry the same tokens (only spacing differs). -/
def TokRel (ss1 ss2 : List (Nat × Tok)) : Prop :=
  ss1.map Prod.snd = ss2.map Prod.snd

/-- Spacing-independence statement for `matchPrimary` on streams of at
most `n` tokens: at a stripped position, both renderings fail together or
succeed with the same pair, leaving renderings of token-equal suffixes. -/
def primarySim (n : Nat) : Prop :=
  ∀ ss1 ss2 tr1 tr2 fuel1 fuel2,
    ss1.length ≤ n → TokRel ss1 ss2 →
    goodToks ss1 = true → goodToks ss2 = true →
    4 * ss1.length + 2 ≤ fuel1 → 4 * ss1.length + 2 ≤ fuel2 →
    (matchPrimary fuel1 (skipSpaces (render ss1 tr1)) = none ∧
     matchPrimary fuel2 (skipSpaces (render ss2 tr2)) = none) ∨
    (∃ p ss1' ss2',
      matchPrimary fuel1 (skipSpaces (render ss1 tr1)) = some (p, render ss1' tr1) ∧
      matchPrimary fuel2 (skipSpaces (render ss2 tr2)) = some (p, render ss2' tr2) ∧
      TokRel ss1' ss2' ∧ goodToks ss1' = true ∧ goodToks ss2' = true ∧
      ss1'.length < ss1.length)

/-- Spacing-independence statement for `matchAtom` (stripped position). -/
def atomSim (n : Nat) : Prop :=
  ∀ ss1 ss2 tr1 tr2 fuel1 fuel2,
    ss1.length ≤ n → TokRel ss1 ss2 →
    goodToks ss1 = true → goodToks ss2 = true →
    4 * ss1.length + 3 ≤ fuel1 → 4 * ss1.length + 3 ≤ fuel2 →
    (matchAtom fuel1 (skipSpaces (render ss1 tr1)) = none ∧
     matchAtom fuel2 (skipSpaces (render ss2 tr2)) = none) ∨
    (∃ aps ss1' ss2',
      matchAtom fuel1 (skipSpaces (render ss1 tr1)) = some (aps, render ss1' tr1) ∧
      matchAtom fuel2 (skipSpaces (render ss2 tr2)) = some (aps, render ss2' tr2) ∧
      TokRel ss1' ss2' ∧ goodToks ss1' = true ∧ goodToks ss2' = true ∧
      ss1'.length < ss1.length)

/-- Spacing-independence statement for `matchOpAtoms` (unstripped
position; with enough fuel the greedy star always succeeds, consuming
zero or more tokens). -/
def opAtomsSim (n : Nat) : Prop :=
  ∀ ss1 ss2 tr1 tr2 fuel1 fuel2,
    ss1.length ≤ n → TokRel ss1 ss2 →
    goodToks ss1 = true → goodToks ss2 = true →
    4 * ss1.length + 4 ≤ fuel1 → 4 * ss1.length + 4 ≤ fuel2 →
    ∃ ps ss1' ss2',
      matchOpAtoms fuel1 (render ss1 tr1) = some (ps, render ss1' tr1) ∧
      matchOpAtoms fuel2 (render ss2 tr2) = some (ps, render ss2' tr2) ∧
      TokRel ss1' ss2' ∧ goodToks ss1' = true ∧ goodToks ss2' = true ∧
      ss1'.length ≤ ss1.length

/-- Spacing-independence statement for `matchExprRule` (stripped
position). -/
def exprSim (n : Nat) : Prop :=
  ∀ ss1 ss2 tr1 tr2 fuel1 fuel2,
    ss1.length ≤ n → TokRel ss1 ss2 →
    goodToks ss1 = true → goodToks ss2 = true →
    4 * ss1.length + 4 ≤ fuel1 → 4 * ss1.length + 4 ≤ fuel2 →
    (matchExprRule fuel1 (skipSpaces (render ss1 tr1)) = none ∧
     matchExprRule fuel2 (skipSpaces (render ss2 tr2)) = none) ∨
    (∃ ps ss1' ss2',
      matchExprRule fuel1 (skipSpaces (render ss1 tr1)) = some (ps, render ss1' tr1) ∧
      matchExprRule fuel2 (skipSpaces (render ss2 tr2)) = some (ps, render ss2' tr2) ∧
      TokRel ss1' ss2' ∧ goodToks ss1' = true ∧ goodToks ss2' = true ∧
      ss1'.length < ss1.length)

/-- C1: the claim as frozen is false on the code: `"5/0"` does not produce a
recoverable per-line `DivisionByZero` error after which processing continues;
evaluation of `/` by zero panics, aborting the process, so the following
input line `"1+1"` is never processed (the run has one outcome, not two). -/
theorem C1_counterexample :
    runLines ["5/0", "1+1"] = [LineOutcome.panicked "attempt to divide by zero"] ∧
    (runLines ["5/0", "1+1"]).length = 1 ∧
    runLines ["5%0", "1+1"] =
      [LineOutcome.panicked "attempt to calculate the remainder with a divisor of zero"] :=
  ⟨by decide, by decide, by decide⟩

/-- C1 (amended): whenever a `/` or `%` node's right operand evaluates to
zero, evaluation panics with Rust's divide-by-zero panic; the panic aborts
the process, so no `Result:` line is printed for that line and no further
input lines are processed (illustrated on `"5/0"` and `"5%0"`). -/
theorem C1_div_mod_by_zero_panics :
    (∀ (l r : Expr) (a : Int), l.evaluate = .ok a → r.evaluate = .ok 0 →
      (Expr.BinOp l .Divide r).evaluate = .error "attempt to divide by zero") ∧
    (∀ (l r : Expr) (a : Int), l.evaluate = .ok a → r.evaluate = .ok 0 →
      (Expr.BinOp l .Modulo r).evaluate =
        .error "attempt to calculate the remainder with a divisor of zero") ∧
    runLines ["5/0", "1+1"] = [LineOutcome.panicked "attempt to divide by zero"] ∧
    runLines ["5%0", "1+1"] =
      [LineOutcome.panicked "attempt to calculate the remainder with a divisor of zero"] := by
  refine ⟨?_, ?_, by decide, by decide⟩ <;>
    · intro l r a hl hr
      simp [Expr.evaluate, hl, hr, bind, Except.bind]

/-- Witness for C1's theorem at the concrete tree of `"5/0"`. -/
theorem C1_witness :
    (Expr.BinOp (Expr.Integer 5) .Divide (Expr.Integer 0)).evaluate =
      .error "attempt to divide by zero" :=
  C1_div_mod_by_zero_panics.1 (Expr.Integer 5) (Expr.Integer 0) 5 rfl rfl

/-- C2: the claim as frozen is false on the code: an add whose exact result
exceeds the `i32` range does not yield a recoverable per-line
`ArithmeticOverflow` error; under the default (debug) profile the addition
panics and the process aborts, so the next line is never processed. -/
theorem C2_counterexample :
    runLines ["2147483647+1", "1+1"] =
      [LineOutcome.panicked "attempt to add with overflow"] ∧
    (runLines ["2147483647+1", "1+1"]).length = 1 :=
  ⟨by decide, by decide⟩

/-- C2 (amended): an add, subtract, multiply or negate whose exact result
does not fit `i32` panics under the default debug profile's checked
arithmetic (release builds wrap silently instead); the panic aborts the
process rather than being reported as a recoverable per-line error. -/
theorem C2_overflow_panics :
    (∀ (l r : Expr) (a b : Int), l.evaluate = .ok a → r.evaluate = .ok b →
      inRangeI32 (a + b) = false →
      (Expr.BinOp l .Add r).evaluate = .error "attempt to add with overflow") ∧
    (∀ (l r : Expr) (a b : Int), l.evaluate = .ok a → r.evaluate = .ok b →
      inRangeI32 (a - b) = false →
      (Expr.BinOp l .Subtract r).evaluate = .error "attempt to subtract with overflow") ∧
    (∀ (l r : Expr) (a b : Int), l.evaluate = .ok a → r.evaluate = .ok b →
      inRangeI32 (a * b) = false →
      (Expr.BinOp l .Multiply r).evaluate = .error "attempt to multiply with overflow") ∧
    (∀ (e : Expr) (v : Int), e.evaluate = .ok v → inRangeI32 (-v) = false →
      (Expr.UnaryMinus e).evaluate = .error "attempt to negate with overflow") ∧
    runLines ["2147483647+1", "1+1"] =
      [LineOutcome.panicked "attempt to add with overflow"] := by
  refine ⟨?_, ?_, ?_, ?_, by decide⟩
  · intro l r a b hl hr hov
    simp [Expr.evaluate, hl, hr, checkedI32, hov, bind, Except.bind]
  · intro l r a b hl hr hov
    simp [Expr.evaluate, hl, hr, checkedI32, hov, bind, Except.bind]
  · intro l r a b hl hr hov
    simp [Expr.evaluate, hl, hr, checkedI32, hov, bind, Except.bind]
  · intro e v he hov
    simp [Expr.evaluate, he, checkedI32, hov, bind, Except.bind]

/-- Witness for C2's theorem at the concrete tree of `"2147483647+1"`. -/
theorem C2_witness :
    (Expr.BinOp (Expr.Integer 2147483647) .Add (Expr.Integer 1)).evaluate =
      .error "attempt to add with overflow" :=
  C2_overflow_panics.1 (Expr.Integer 2147483647) (Expr.Integer 1) 2147483647 1 rfl rfl
    (by decide)

/-- C3: the claim as frozen is false on the code: a grammar-valid line whose
digit sequence exceeds the `i32` range (here `"2147483648"`) does not yield
a recoverable per-line error; `parse::<i32>().unwrap()` panics, aborting
the process, so the following line is never processed. -/
theorem C3_counterexample :
    runLines ["2147483648", "1+1"] =
      [LineOutcome.panicked "called Result::unwrap() on an Err value: ParseIntError"] ∧
    (runLines ["2147483648", "1+1"]).length = 1 :=
  ⟨by decide, by decide⟩

/-- C3 (amended): when the matched digit sequence does not convert to an
`i32`, the `.unwrap()` in `parse_expr`'s primary handler panics, aborting
the process: the error is not recoverable and processing does not continue
with the next line. -/
theorem C3_literal_overflow_panics :
    (∀ (fuel : Nat) (s : String) (rest : PairList), parseI32 s = none →
      parsePrimary (fuel + 1) (.cons (Pair.integer s) rest) =
        .error "called Result::unwrap() on an Err value: ParseIntError") ∧
    processLine "2147483648" =
      .panicked "called Result::unwrap() on an Err value: ParseIntError" ∧
    runLines ["2147483648", "1+1"] =
      [LineOutcome.panicked "called Result::unwrap() on an Err value: ParseIntError"] := by
  refine ⟨?_, by decide, by decide⟩
  intro fuel s rest h
  simp [parsePrimary, h]

/-- Witness for C3's theorem at the digit sequence of `"2147483648"`. -/
theorem C3_witness :
    parsePrimary 1 (pl [Pair.integer "2147483648"]) =
      .error "called Result::unwrap() on an Err value: ParseIntError" :=
  C3_literal_overflow_panics.1 0 "2147483648" .nil (by decide)

/-- C4: the Pratt parser honors the precedence table with left
associativity. Generally: any three atoms joined by two same-precedence
operators group from the left, and a precedence-1 operator followed by a
precedence-2 operator groups the tighter pair to the right; in particular
`"2+3*4"` evaluates to 14, `"(2+3)*4"` to 20, and `"10-3-2"` to 5. -/
theorem C4_precedence_left_assoc :
    (∀ (s1 s2 s3 : String) (v1 v2 v3 : Int) (o1 o2 : OpType),
      parseI32 s1 = some v1 → parseI32 s2 = some v2 → parseI32 s3 = some v3 →
      opPrec o1 = opPrec o2 →
      parse_expr (pl [.integer s1, opPair o1, .integer s2, opPair o2, .integer s3]) =
        .ok (.BinOp (.BinOp (.Integer v1) o1 (.Integer v2)) o2 (.Integer v3))) ∧
    (∀ (s1 s2 s3 : String) (v1 v2 v3 : Int) (o1 o2 : OpType),
      parseI32 s1 = some v1 → parseI32 s2 = some v2 → parseI32 s3 = some v3 →
      opPrec o1 = 1 → opPrec o2 = 2 →
      parse_expr (pl [.integer s1, opPair o1, .integer s2, opPair o2, .integer s3]) =
        .ok (.BinOp (.Integer v1) o1 (.BinOp (.Integer v2) o2 (.Integer v3)))) ∧
    processLine "2+3*4" = .result 14 ∧
    processLine "(2+3)*4" = .result 20 ∧
    processLine "10-3-2" = .result 5 := by
  refine ⟨?_, ?_, by decide, by decide, by decide⟩
  · intro s1 s2 s3 v1 v2 v3 o1 o2 h1 h2 h3 hp
    cases o1 <;> cases o2 <;>
      simp_all [parse_expr, pl, pairListWeight, pairWeight, parseAllFuel, parseBp,
        parsePrimary, parseLoop, opOf, opPair, opPrec]
  · intro s1 s2 s3 v1 v2 v3 o1 o2 h1 h2 h3 hp1 hp2
    cases o1 <;> cases o2 <;>
      simp_all [parse_expr, pl, pairListWeight, pairWeight, parseAllFuel, parseBp,
        parsePrimary, parseLoop, opOf, opPair, opPrec]

/-- Witness for C4's theorem: the `"10-3-2"` shape groups as `(10-3)-2`. -/
theorem C4_witness :
    parse_expr (pl [.integer "10", opPair .Subtract, .integer "3", opPair .Subtract,
        .integer "2"]) =
      .ok (.BinOp (.BinOp (.Integer 10) .Subtract (.Integer 3)) .Subtract (.Integer 2)) :=
  C4_precedence_left_assoc.1 "10" "3" "2" 10 3 2 .Subtract .Subtract (by decide)
    (by decide) (by decide) rfl

/-- C5: prefix unary minus binds tighter than every binary operator.
Generally: a `unary_minus` pair followed by an integer atom parses into
`UnaryMinus` of exactly that atom, leaving any following operator stream
untouched; in particular `"-2*3"` evaluates to -6 (parsed `(-2)*3`),
`"-2+3"` to 1 (parsed `(-2)+3`), and `"-(2+3)"` to -5. -/
theorem C5_unary_minus_binds_tightest :
    (∀ (fuel : Nat) (s : String) (v : Int) (rest : PairList),
      parseI32 s = some v →
      parsePrimary (fuel + 3) (.cons Pair.unaryMinus (.cons (Pair.integer s) rest)) =
        .ok (.UnaryMinus (.Integer v), rest)) ∧
    processLine "-2*3" = .result (-6) ∧
    processLine "-2+3" = .result 1 ∧
    processLine "-(2+3)" = .result (-5) := by
  refine ⟨?_, by decide, by decide, by decide⟩
  intro fuel s v rest h
  cases rest with
  | nil => simp [parsePrimary, parseBp, parseLoop, unaryMinusPrec, h]
  | cons t r =>
      cases t <;> simp [parsePrimary, parseBp, parseLoop, unaryMinusPrec, opOf, h]

/-- Witness for C5's theorem at the pair stream of `"-2*3"`. -/
theorem C5_witness :
    parsePrimary 3 (pl [Pair.unaryMinus, Pair.integer "2", Pair.multiply, Pair.integer "3"]) =
      .ok (.UnaryMinus (.Integer 2), pl [Pair.multiply, Pair.integer "3"]) :=
  C5_unary_minus_binds_tightest.1 0 "2" 2 (pl [Pair.multiply, Pair.integer "3"]) (by decide)

/-- C6: every line the grammar matcher rejects yields the recoverable
parse-failure outcome (pest's error printed as `Parse failed: ...`), no
`Result:` line, and processing continues with the next input line; in
particular `"1+"`, `"(1+2"`, `""` and `"1+*2"` are all rejected and the
following line is still evaluated. -/
theorem C6_grammar_mismatch_recoverable :
    (∀ (line : String) (rest : List String), calculatorParse line = none →
      processLine line = .parseFailed ∧
      runLines (line :: rest) = LineOutcome.parseFailed :: runLines rest) ∧
    processLine "1+" = .parseFailed ∧
    processLine "(1+2" = .parseFailed ∧
    processLine "" = .parseFailed ∧
    processLine "1+*2" = .parseFailed ∧
    runLines ["1+", "1+1"] = [.parseFailed, .result 2] ∧
    runLines ["(1+2", "1+1"] = [.parseFailed, .result 2] ∧
    runLines ["", "1+1"] = [.parseFailed, .result 2] ∧
    runLines ["1+*2", "1+1"] = [.parseFailed, .result 2] := by
  refine ⟨?_, by decide, by decide, by decide, by decide, by decide, by decide,
    by decide, by decide⟩
  intro line rest h
  have hp : processLine line = .parseFailed := by simp [processLine, h]
  exact ⟨hp, by simp [runLines, hp]⟩

/-- Witness for C6's theorem at the rejected line `"1+"`. -/
theorem C6_witness :
    processLine "1+" = .parseFailed ∧
    runLines ["1+"] = LineOutcome.parseFailed :: runLines [] :=
  C6_grammar_mismatch_recoverable.1 "1+" [] (by decide)

theorem digit_facts (c : Char) (h : c.isDigit = true) :
    c ≠ ' ' ∧ c ≠ '(' ∧ c ≠ ')' ∧ c ≠ '+' ∧ c ≠ '-' ∧ c ≠ '*' ∧ c ≠ '/' ∧ c ≠ '%' := by
  refine ⟨?_, ?_, ?_, ?_, ?_, ?_, ?_, ?_⟩ <;> (rintro rfl; exact absurd h (by decide))

theorem skipSpaces_replicate (k : Nat) (cs : List Char) :
    skipSpaces (List.replicate k ' ' ++ cs) = skipSpaces cs := by
  induction k with
  | zero => simp
  | succ k ih => simpa [List.replicate_succ, skipSpaces] using ih

theorem skipSpaces_cons_of_ne (c : Char) (cs : List Char) (h : c ≠ ' ') :
    skipSpaces (c :: cs) = c :: cs := by
  unfold skipSpaces
  split
  · rename_i rest heq
    injection heq with h1 h2
    exact absurd h1 h
  · rfl

theorem chars_length_pos (t : Tok) : 1 ≤ t.chars.length := by
  cases t <;> simp [Tok.chars]

theorem strip_render_cons (k : Nat) (t : Tok) (ss : List (Nat × Tok)) (tr : Nat)
    (hg : t.goodTok = true) :
    skipSpaces (render ((k, t) :: ss) tr) = t.chars ++ render ss tr := by
  simp only [render, List.append_assoc]
  rw [skipSpaces_replicate]
  cases t with
  | num d ds =>
      have hd : d.isDigit = true := by
        simp only [Tok.goodTok, Bool.and_eq_true] at hg
        exact hg.1
      simpa [Tok.chars] using skipSpaces_cons_of_ne d (ds ++ render ss tr) (digit_facts d hd).1
  | lpar => simpa [Tok.chars] using skipSpaces_cons_of_ne '(' (render ss tr) (by decide)
  | rpar => simpa [Tok.chars] using skipSpaces_cons_of_ne ')' (render ss tr) (by decide)
  | plus => simpa [Tok.chars] using skipSpaces_cons_of_ne '+' (render ss tr) (by decide)
  | minus => simpa [Tok.chars] using skipSpaces_cons_of_ne '-' (render ss tr) (by decide)
  | star => simpa [Tok.chars] using skipSpaces_cons_of_ne '*' (render ss tr) (by decide)
  | slash => simpa [Tok.chars] using skipSpaces_cons_of_ne '/' (render ss tr) (by decide)
  | percent => simpa [Tok.chars] using skipSpaces_cons_of_ne '%' (render ss tr) (by decide)

theorem skipSpaces_replicate_nil (tr : Nat) : skipSpaces (List.replicate tr ' ') = [] := by
  simpa using skipSpaces_replicate tr []

theorem strip_render_nil (tr : Nat) : skipSpaces (render [] tr) = [] := by
  simpa [render] using skipSpaces_replicate_nil tr

theorem takeDigits_cons_not_digit (c : Char) (cs : List Char) (h : c.isDigit = false) :
    takeDigits (c :: cs) = ([], c :: cs) := by
  simp [takeDigits, h]

theorem takeDigits_render (ss : List (Nat × Tok)) (tr : Nat)
    (hb : numBoundaryOk ss = true) :
    takeDigits (render ss tr) = ([], render ss tr) := by
  cases ss with
  | nil =>
      cases tr with
      | zero => simp [render, takeDigits]
      | succ tr => simp [render, List.replicate_succ, takeDigits_cons_not_digit]
  | cons a rest =>
      obtain ⟨k, t⟩ := a
      cases k with
      | succ k =>
          simp [render, List.replicate_succ, takeDigits_cons_not_digit]
      | zero =>
          cases t with
          | num d ds => simp [numBoundaryOk] at hb
          | lpar => simp [render, Tok.chars, takeDigits_cons_not_digit]
          | rpar => simp [render, Tok.chars, takeDigits_cons_not_digit]
          | plus => simp [render, Tok.chars, takeDigits_cons_not_digit]
          | minus => simp [render, Tok.chars, takeDigits_cons_not_digit]
          | star => simp [render, Tok.chars, takeDigits_cons_not_digit]
          | slash => simp [render, Tok.chars, takeDigits_cons_not_digit]
          | percent => simp [render, Tok.chars, takeDigits_cons_not_digit]

theorem takeDigits_exact (ds rest : List Char) (hds : ds.all (·.isDigit) = true)
    (hr : takeDigits rest = ([], rest)) : takeDigits (ds ++ rest) = (ds, rest) := by
  induction ds with
  | nil => simpa using hr
  | cons d t ih =>
      simp only [List.all_cons, Bool.and_eq_true] at hds
      simp [takeDigits, hds.1, ih hds.2]

theorem matchInteger_num (d : Char) (ds : List Char) (ss : List (Nat × Tok)) (tr : Nat)
    (hg : (Tok.num d ds).goodTok = true) (hb : numBoundaryOk ss = true) :
    matchInteger (Tok.chars (.num d ds) ++ render ss tr) =
      some (.integer (String.mk (d :: ds)), render ss tr) := by
  simp only [Tok.goodTok, Bool.and_eq_true] at hg
  have hall : (d :: ds).all (·.isDigit) = true := by
    simp [List.all_cons, hg.1, hg.2]
  have h1 : takeDigits ((d :: ds) ++ render ss tr) = (d :: ds, render ss tr) :=
    takeDigits_exact _ _ hall (takeDigits_render ss tr hb)
  simp only [List.cons_append] at h1
  simp [matchInteger, Tok.chars, h1]

theorem matchInteger_not_digit (c : Char) (cs : List Char) (h : c.isDigit = false) :
    matchInteger (c :: cs) = none := by
  simp [matchInteger, takeDigits_cons_not_digit c cs h]

theorem matchBinOp_digit (c : Char) (cs : List Char) (h : c.isDigit = true) :
    matchBinOp (c :: cs) = none := by
  obtain ⟨-, -, -, h4, h5, h6, h7, h8⟩ := digit_facts c h
  unfold matchBinOp
  split <;> simp_all

theorem wellSep_tail (a : Nat × Tok) (rest : List (Nat × Tok))
    (h : wellSep (a :: rest) = true) : wellSep rest = true := by
  obtain ⟨k1, t1⟩ := a
  cases rest with
  | nil => simp [wellSep]
  | cons b t =>
      obtain ⟨k2, t2⟩ := b
      simp only [wellSep, Bool.and_eq_true] at h
      exact h.2

theorem goodToks_tail (a : Nat × Tok) (rest : List (Nat × Tok))
    (h : goodToks (a :: rest) = true) : goodToks rest = true := by
  simp only [goodToks, List.all_cons, Bool.and_eq_true] at h ⊢
  exact ⟨h.1.2, wellSep_tail a rest h.2⟩

theorem goodToks_head (k : Nat) (t : Tok) (rest : List (Nat × Tok))
    (h : goodToks ((k, t) :: rest) = true) : t.goodTok = true := by
  simp only [goodToks, List.all_cons, Bool.and_eq_true] at h
  exact h.1.1

theorem numBoundaryOk_of_wellSep (k1 : Nat) (d : Char) (ds : List Char)
    (rest : List (Nat × Tok)) (h : wellSep ((k1, Tok.num d ds) :: rest) = true) :
    numBoundaryOk rest = true := by
  cases rest with
  | nil => simp [numBoundaryOk]
  | cons b t =>
      obtain ⟨k2, t2⟩ := b
      simp only [wellSep, Bool.and_eq_true] at h
      cases t2 with
      | num d2 ds2 =>
          simp only [sepOk, Tok.isNum, Bool.and_self, Bool.not_true, Bool.false_or] at h
          simpa [numBoundaryOk] using h.1
      | lpar => simp [numBoundaryOk]
      | rpar => simp [numBoundaryOk]
      | plus => simp [numBoundaryOk]
      | minus => simp [numBoundaryOk]
      | star => simp [numBoundaryOk]
      | slash => simp [numBoundaryOk]
      | percent => simp [numBoundaryOk]

theorem tokRel_nil (ss2 : List (Nat × Tok)) (h : TokRel [] ss2) : ss2 = [] := by
  simpa [TokRel] using (List.map_eq_nil_iff.mp h.symm)

theorem tokRel_cons (k1 : Nat) (t : Tok) (r1 ss2 : List (Nat × Tok))
    (h : TokRel ((k1, t) :: r1) ss2) :
    ∃ k2 r2, ss2 = (k2, t) :: r2 ∧ TokRel r1 r2 := by
  cases ss2 with
  | nil => simp [TokRel] at h
  | cons b r2 =>
      obtain ⟨k2, t2⟩ := b
      simp only [TokRel, List.map_cons, List.cons.injEq] at h
      exact ⟨k2, r2, by simp [h.1], h.2⟩

theorem tokRel_length (ss1 ss2 : List (Nat × Tok)) (h : TokRel ss1 ss2) :
    ss1.length = ss2.length := by
  have := congrArg List.length h
  simpa using this

theorem length_le_render (ss : List (Nat × Tok)) (tr : Nat) :
    ss.length ≤ (render ss tr).length := by
  induction ss with
  | nil => simp [render]
  | cons a rest ih =>
      obtain ⟨k, t⟩ := a
      have := chars_length_pos t
      simp only [render, List.length_append, List.length_cons, List.length_replicate]
      omega

theorem matchPrimary_nil (f : Nat) (hf : 1 ≤ f) : matchPrimary f [] = none := by
  obtain ⟨g, rfl⟩ : ∃ g, f = g + 1 := ⟨f - 1, by omega⟩
  simp [matchPrimary, matchInteger, takeDigits]

theorem matchAtom_nil (f : Nat) (hf : 2 ≤ f) : matchAtom f [] = none := by
  obtain ⟨g, rfl⟩ : ∃ g, f = g + 1 := ⟨f - 1, by omega⟩
  simp [matchAtom, matchPrimary_nil g (by omega)]

theorem matchExprRule_nil (f : Nat) (hf : 3 ≤ f) : matchExprRule f [] = none := by
  obtain ⟨g, rfl⟩ : ∃ g, f = g + 1 := ⟨f - 1, by omega⟩
  simp [matchExprRule, matchAtom_nil g (by omega)]

theorem matchOpAtoms_render_nil (f tr : Nat) (hf : 1 ≤ f) :
    matchOpAtoms f (render [] tr) = some (.nil, render [] tr) := by
  obtain ⟨g, rfl⟩ : ∃ g, f = g + 1 := ⟨f - 1, by omega⟩
  simp [matchOpAtoms, strip_render_nil, matchBinOp]

theorem matchBinOp_tok (t : Tok) (rest : List Char) (hg : t.goodTok = true) :
    matchBinOp (t.chars ++ rest) = Option.map (fun p => (p, rest)) t.binPair := by
  cases t with
  | num d ds =>
      have hd : d.isDigit = true := by
        simp only [Tok.goodTok, Bool.and_eq_true] at hg
        exact hg.1
      simp [Tok.chars, Tok.binPair, matchBinOp_digit d (ds ++ rest) hd]
  | lpar => simp [Tok.chars, Tok.binPair, matchBinOp]
  | rpar => simp [Tok.chars, Tok.binPair, matchBinOp]
  | plus => simp [Tok.chars, Tok.binPair, matchBinOp]
  | minus => simp [Tok.chars, Tok.binPair, matchBinOp]
  | star => simp [Tok.chars, Tok.binPair, matchBinOp]
  | slash => simp [Tok.chars, Tok.binPair, matchBinOp]
  | percent => simp [Tok.chars, Tok.binPair, matchBinOp]

theorem matchAtom_not_minus (g : Nat) (c : Char) (cs : List Char) (h : c ≠ '-') :
    matchAtom (g + 1) (c :: cs) =
      match matchPrimary g (c :: cs) with
      | none => none
      | some (p, rest) => some (.cons p .nil, rest) := by
  simp only [matchAtom]
  split
  · rename_i cs1 heq
    injection heq with h1 h2
    exact absurd h1 h
  · rfl

theorem tok_head_ne_minus (t : Tok) (ht : t ≠ Tok.minus) (hg : t.goodTok = true) :
    ∃ c cs0, t.chars = c :: cs0 ∧ c ≠ '-' := by
  cases t with
  | num d ds =>
      have hd : d.isDigit = true := by
        simp only [Tok.goodTok, Bool.and_eq_true] at hg
        exact hg.1
      exact ⟨d, ds, rfl, (digit_facts d hd).2.2.2.2.1⟩
  | lpar => exact ⟨'(', [], rfl, by decide⟩
  | rpar => exact ⟨')', [], rfl, by decide⟩
  | plus => exact ⟨'+', [], rfl, by decide⟩
  | minus => exact absurd rfl ht
  | star => exact ⟨'*', [], rfl, by decide⟩
  | slash => exact ⟨'/', [], rfl, by decide⟩
  | percent => exact ⟨'%', [], rfl, by decide⟩

theorem spacingSim (n : Nat) : primarySim n ∧ atomSim n ∧ opAtomsSim n ∧ exprSim n := by
  induction n with
  | zero =>
      refine ⟨?_, ?_, ?_, ?_⟩
      · intro ss1 ss2 tr1 tr2 f1 f2 hlen hrel hg1 hg2 hf1 hf2
        obtain rfl : ss1 = [] := List.length_eq_zero.mp (Nat.le_zero.mp hlen)
        obtain rfl : ss2 = [] := tokRel_nil _ hrel
        left
        rw [strip_render_nil, strip_render_nil]
        exact ⟨matchPrimary_nil f1 (by omega), matchPrimary_nil f2 (by omega)⟩
      · intro ss1 ss2 tr1 tr2 f1 f2 hlen hrel hg1 hg2 hf1 hf2
        obtain rfl : ss1 = [] := List.length_eq_zero.mp (Nat.le_zero.mp hlen)
        obtain rfl : ss2 = [] := tokRel_nil _ hrel
        left
        rw [strip_render_nil, strip_render_nil]
        exact ⟨matchAtom_nil f1 (by omega), matchAtom_nil f2 (by omega)⟩
      · intro ss1 ss2 tr1 tr2 f1 f2 hlen hrel hg1 hg2 hf1 hf2
        obtain rfl : ss1 = [] := List.length_eq_zero.mp (Nat.le_zero.mp hlen)
        obtain rfl : ss2 = [] := tokRel_nil _ hrel
        exact ⟨.nil, [], [], matchOpAtoms_render_nil f1 tr1 (by omega),
          matchOpAtoms_render_nil f2 tr2 (by omega), rfl, rfl, rfl, by simp⟩
      · intro ss1 ss2 tr1 tr2 f1 f2 hlen hrel hg1 hg2 hf1 hf2
        obtain rfl : ss1 = [] := List.length_eq_zero.mp (Nat.le_zero.mp hlen)
        obtain rfl : ss2 = [] := tokRel_nil _ hrel
        left
        rw [strip_render_nil, strip_render_nil]
        exact ⟨matchExprRule_nil f1 (by omega), matchExprRule_nil f2 (by omega)⟩
  | succ n ih =>
      obtain ⟨ihP, ihA, ihO, ihE⟩ := ih
      have hPr : primarySim (n + 1) := by
        intro ss1 ss2 tr1 tr2 f1 f2 hlen hrel hg1 hg2 hf1 hf2
        rcases Nat.lt_or_ge ss1.length (n + 1) with hlt | hge
        · exact ihP ss1 ss2 tr1 tr2 f1 f2 (by omega) hrel hg1 hg2 hf1 hf2
        · cases ss1 with
          | nil => simp at hge
          | cons a rest1 =>
            obtain ⟨k1, t⟩ := a
            obtain ⟨k2, r2, rfl, hrel'⟩ := tokRel_cons k1 t rest1 ss2 hrel
            have hgt1 : t.goodTok = true := goodToks_head _ _ _ hg1
            have hgt2 : t.goodTok = true := goodToks_head _ _ _ hg2
            have hg1' := goodToks_tail _ _ hg1
            have hg2' := goodToks_tail _ _ hg2
            have hlen1 : rest1.length ≤ n := by
              simp only [List.length_cons] at hlen
              omega
            obtain ⟨g1, rfl⟩ : ∃ g, f1 = g + 1 := ⟨f1 - 1, by omega⟩
            obtain ⟨g2, rfl⟩ : ∃ g, f2 = g + 1 := ⟨f2 - 1, by omega⟩
            rw [strip_render_cons k1 t rest1 tr1 hgt1, strip_render_cons k2 t r2 tr2 hgt2]
            cases t with
            | num d ds =>
                have hb1 : numBoundaryOk rest1 = true := by
                  refine numBoundaryOk_of_wellSep k1 d ds rest1 ?_
                  simp only [goodToks, Bool.and_eq_true] at hg1
                  exact hg1.2
                have hb2 : numBoundaryOk r2 = true := by
                  refine numBoundaryOk_of_wellSep k2 d ds r2 ?_
                  simp only [goodToks, Bool.and_eq_true] at hg2
                  exact hg2.2
                right
                refine ⟨Pair.integer (String.mk (d :: ds)), rest1, r2, ?_, ?_, hrel',
                  hg1', hg2', by simp⟩
                · simp [matchPrimary, matchInteger_num d ds rest1 tr1 hgt1 hb1]
                · simp [matchPrimary, matchInteger_num d ds r2 tr2 hgt2 hb2]
            | lpar =>
                have hmi1 : matchInteger ('(' :: render rest1 tr1) = none :=
                  matchInteger_not_digit '(' (render rest1 tr1) (by decide)
                have hmi2 : matchInteger ('(' :: render r2 tr2) = none :=
                  matchInteger_not_digit '(' (render r2 tr2) (by decide)
                rcases ihE rest1 r2 tr1 tr2 g1 g2 hlen1 hrel' hg1' hg2'
                    (by simp only [List.length_cons] at hf1; omega)
                    (by simp only [List.length_cons] at hf2; omega) with
                  ⟨hn1, hn2⟩ | ⟨ps, u1, u2, he1, he2, hrelu, hgu1, hgu2, hlu⟩
                · left
                  constructor
                  · simp [matchPrimary, Tok.chars, hmi1, hn1]
                  · simp [matchPrimary, Tok.chars, hmi2, hn2]
                · cases u1 with
                  | nil =>
                      obtain rfl : u2 = [] := tokRel_nil _ hrelu
                      left
                      constructor
                      · simp [matchPrimary, Tok.chars, hmi1, he1, strip_render_nil]
                      · simp [matchPrimary, Tok.chars, hmi2, he2, strip_render_nil]
                  | cons b v1 =>
                      obtain ⟨k1', t'⟩ := b
                      obtain ⟨k2', v2, rfl, hrelv⟩ := tokRel_cons k1' t' v1 u2 hrelu
                      have hgt1' : t'.goodTok = true := goodToks_head _ _ _ hgu1
                      have hgt2' : t'.goodTok = true := goodToks_head _ _ _ hgu2
                      cases t' with
                      | rpar =>
                          right
                          refine ⟨Pair.expr ps, v1, v2, ?_, ?_, hrelv,
                            goodToks_tail _ _ hgu1, goodToks_tail _ _ hgu2, ?_⟩
                          · simp [matchPrimary, Tok.chars, hmi1, he1,
                              strip_render_cons k1' Tok.rpar v1 tr1 hgt1']
                          · simp [matchPrimary, Tok.chars, hmi2, he2,
                              strip_render_cons k2' Tok.rpar v2 tr2 hgt2']
                          · simp only [List.length_cons] at hlu ⊢
                            omega
                      | num d' ds' =>
                          have hne : d' ≠ ')' := by
                            have hd' : d'.isDigit = true := by
                              simp only [Tok.goodTok, Bool.and_eq_true] at hgt1'
                              exact hgt1'.1
                            exact (digit_facts d' hd').2.2.1
                          left
                          constructor
                          · have hs1 := strip_render_cons k1' (Tok.num d' ds') v1 tr1 hgt1'
                            simp only [Tok.chars, List.cons_append] at hs1
                            simp only [matchPrimary, Tok.chars, List.cons_append, hmi1,
                              he1, hs1]
                            split <;> simp_all
                          · have hs2 := strip_render_cons k2' (Tok.num d' ds') v2 tr2 hgt2'
                            simp only [Tok.chars, List.cons_append] at hs2
                            simp only [matchPrimary, Tok.chars, List.cons_append, hmi2,
                              he2, hs2]
                            split <;> simp_all
                      | lpar =>
                          left
                          constructor
                          · simp [matchPrimary, Tok.chars, hmi1, he1,
                              strip_render_cons k1' Tok.lpar v1 tr1 hgt1']
                          · simp [matchPrimary, Tok.chars, hmi2, he2,
                              strip_render_cons k2' Tok.lpar v2 tr2 hgt2']
                      | plus =>
                          left
                          constructor
                          · simp [matchPrimary, Tok.chars, hmi1, he1,
                              strip_render_cons k1' Tok.plus v1 tr1 hgt1']
                          · simp [matchPrimary, Tok.chars, hmi2, he2,
                              strip_render_cons k2' Tok.plus v2 tr2 hgt2']
                      | minus =>
                          left
                          constructor
                          · simp [matchPrimary, Tok.chars, hmi1, he1,
                              strip_render_cons k1' Tok.minus v1 tr1 hgt1']
                          · simp [matchPrimary, Tok.chars, hmi2, he2,
                              strip_render_cons k2' Tok.minus v2 tr2 hgt2']
                      | star =>
                          left
                          constructor
                          · simp [matchPrimary, Tok.chars, hmi1, he1,
                              strip_render_cons k1' Tok.star v1 tr1 hgt1']
                          · simp [matchPrimary, Tok.chars, hmi2, he2,
                              strip_render_cons k2' Tok.star v2 tr2 hgt2']
                      | slash =>
                          left
                          constructor
                          · simp [matchPrimary, Tok.chars, hmi1, he1,
                              strip_render_cons k1' Tok.slash v1 tr1 hgt1']
                          · simp [matchPrimary, Tok.chars, hmi2, he2,
                              strip_render_cons k2' Tok.slash v2 tr2 hgt2']
                      | percent =>
                          left
                          constructor
                          · simp [matchPrimary, Tok.chars, hmi1, he1,
                              strip_render_cons k1' Tok.percent v1 tr1 hgt1']
                          · simp [matchPrimary, Tok.chars, hmi2, he2,
                              strip_render_cons k2' Tok.percent v2 tr2 hgt2']
            | rpar =>
                left
                constructor
                · simp [matchPrimary, Tok.chars,
                    matchInteger_not_digit ')' (render rest1 tr1) (by decide)]
                · simp [matchPrimary, Tok.chars,
                    matchInteger_not_digit ')' (render r2 tr2) (by decide)]
            | plus =>
                left
                constructor
                · simp [matchPrimary, Tok.chars,
                    matchInteger_not_digit '+' (render rest1 tr1) (by decide)]
                · simp [matchPrimary, Tok.chars,
                    matchInteger_not_digit '+' (render r2 tr2) (by decide)]
            | minus =>
                left
                constructor
                · simp [matchPrimary, Tok.chars,
                    matchInteger_not_digit '-' (render rest1 tr1) (by decide)]
                · simp [matchPrimary, Tok.chars,
                    matchInteger_not_digit '-' (render r2 tr2) (by decide)]
            | star =>
                left
                constructor
                · simp [matchPrimary, Tok.chars,
                    matchInteger_not_digit '*' (render rest1 tr1) (by decide)]
                · simp [matchPrimary, Tok.chars,
                    matchInteger_not_digit '*' (render r2 tr2) (by decide)]
            | slash =>
                left
                constructor
                · simp [matchPrimary, Tok.chars,
                    matchInteger_not_digit '/' (render rest1 tr1) (by decide)]
                · simp [matchPrimary, Tok.chars,
                    matchInteger_not_digit '/' (render r2 tr2) (by decide)]
            | percent =>
                left
                constructor
                · simp [matchPrimary, Tok.chars,
                    matchInteger_not_digit '%' (render rest1 tr1) (by decide)]
                · simp [matchPrimary, Tok.chars,
                    matchInteger_not_digit '%' (render r2 tr2) (by decide)]
      have hAt : atomSim (n + 1) := by
        intro ss1 ss2 tr1 tr2 f1 f2 hlen hrel hg1 hg2 hf1 hf2
        rcases Nat.lt_or_ge ss1.length (n + 1) with hlt | hge
        · exact ihA ss1 ss2 tr1 tr2 f1 f2 (by omega) hrel hg1 hg2 hf1 hf2
        · cases ss1 with
          | nil => simp at hge
          | cons a rest1 =>
            obtain ⟨k1, t⟩ := a
            obtain ⟨k2, r2, rfl, hrel'⟩ := tokRel_cons k1 t rest1 ss2 hrel
            have hgt1 : t.goodTok = true := goodToks_head _ _ _ hg1
            have hgt2 : t.goodTok = true := goodToks_head _ _ _ hg2
            have hg1' := goodToks_tail _ _ hg1
            have hg2' := goodToks_tail _ _ hg2
            have hlen1 : rest1.length ≤ n := by
              simp only [List.length_cons] at hlen
              omega
            obtain ⟨g1, rfl⟩ : ∃ g, f1 = g + 1 := ⟨f1 - 1, by omega⟩
            obtain ⟨g2, rfl⟩ : ∃ g, f2 = g + 1 := ⟨f2 - 1, by omega⟩
            have hs1 := strip_render_cons k1 t rest1 tr1 hgt1
            have hs2 := strip_render_cons k2 t r2 tr2 hgt2
            rw [hs1, hs2]
            by_cases ht : t = Tok.minus
            · subst ht
              simp only [Tok.chars, List.cons_append, List.nil_append]
              rcases ihP rest1 r2 tr1 tr2 g1 g2 hlen1 hrel' hg1' hg2'
                  (by simp only [List.length_cons] at hf1; omega)
                  (by simp only [List.length_cons] at hf2; omega) with
                ⟨hn1, hn2⟩ | ⟨p, u1, u2, hp1, hp2, hrelu, hgu1, hgu2, hlu⟩
              · left
                constructor
                · simp [matchAtom, hn1]
                · simp [matchAtom, hn2]
              · right
                refine ⟨.cons Pair.unaryMinus (.cons p .nil), u1, u2, ?_, ?_,
                  hrelu, hgu1, hgu2, ?_⟩
                · simp [matchAtom, hp1]
                · simp [matchAtom, hp2]
                · simp only [List.length_cons]
                  omega
            · obtain ⟨c, cs0, hch, hcne⟩ := tok_head_ne_minus t ht hgt1
              rcases hPr ((k1, t) :: rest1) ((k2, t) :: r2) tr1 tr2 g1 g2
                  (by omega) hrel hg1 hg2
                  (by simp only [List.length_cons] at hf1 ⊢; omega)
                  (by simp only [List.length_cons] at hf2 ⊢; omega) with
                ⟨hn1, hn2⟩ | ⟨p, u1, u2, hp1, hp2, hrelu, hgu1, hgu2, hlu⟩
              · rw [hs1] at hn1
                rw [hs2] at hn2
                rw [hch] at hn1 hn2 ⊢
                simp only [List.cons_append] at hn1 hn2 ⊢
                rw [matchAtom_not_minus g1 c _ hcne, matchAtom_not_minus g2 c _ hcne]
                left
                constructor
                · simp [hn1]
                · simp [hn2]
              · rw [hs1] at hp1
                rw [hs2] at hp2
                rw [hch] at hp1 hp2 ⊢
                simp only [List.cons_append] at hp1 hp2 ⊢
                rw [matchAtom_not_minus g1 c _ hcne, matchAtom_not_minus g2 c _ hcne]
                right
                refine ⟨.cons p .nil, u1, u2, ?_, ?_, hrelu, hgu1, hgu2, hlu⟩
                · simp [hp1]
                · simp [hp2]
      have hEx : exprSim (n + 1) := by
        intro ss1 ss2 tr1 tr2 f1 f2 hlen hrel hg1 hg2 hf1 hf2
        rcases Nat.lt_or_ge ss1.length (n + 1) with hlt | hge
        · exact ihE ss1 ss2 tr1 tr2 f1 f2 (by omega) hrel hg1 hg2 hf1 hf2
        · obtain ⟨g1, rfl⟩ : ∃ g, f1 = g + 1 := ⟨f1 - 1, by omega⟩
          obtain ⟨g2, rfl⟩ : ∃ g, f2 = g + 1 := ⟨f2 - 1, by omega⟩
          rcases hAt ss1 ss2 tr1 tr2 g1 g2 hlen hrel hg1 hg2 (by omega) (by omega) with
            ⟨hn1, hn2⟩ | ⟨aps, u1, u2, ha1, ha2, hrelu, hgu1, hgu2, hlu⟩
          · left
            constructor
            · simp [matchExprRule, hn1]
            · simp [matchExprRule, hn2]
          · rcases ihO u1 u2 tr1 tr2 g1 g2 (by omega) hrelu hgu1 hgu2 (by omega)
                (by omega) with ⟨ps, w1, w2, ho1, ho2, hrelw, hgw1, hgw2, hlw⟩
            right
            refine ⟨aps.append ps, w1, w2, ?_, ?_, hrelw, hgw1, hgw2, by omega⟩
            · simp [matchExprRule, ha1, ho1]
            · simp [matchExprRule, ha2, ho2]
      have hOp : opAtomsSim (n + 1) := by
        intro ss1 ss2 tr1 tr2 f1 f2 hlen hrel hg1 hg2 hf1 hf2
        rcases Nat.lt_or_ge ss1.length (n + 1) with hlt | hge
        · exact ihO ss1 ss2 tr1 tr2 f1 f2 (by omega) hrel hg1 hg2 hf1 hf2
        · cases ss1 with
          | nil => simp at hge
          | cons a rest1 =>
            obtain ⟨k1, t⟩ := a
            obtain ⟨k2, r2, rfl, hrel'⟩ := tokRel_cons k1 t rest1 ss2 hrel
            have hgt1 : t.goodTok = true := goodToks_head _ _ _ hg1
            have hgt2 : t.goodTok = true := goodToks_head _ _ _ hg2
            have hg1' := goodToks_tail _ _ hg1
            have hg2' := goodToks_tail _ _ hg2
            have hlen1 : rest1.length ≤ n := by
              simp only [List.length_cons] at hlen
              omega
            obtain ⟨g1, rfl⟩ : ∃ g, f1 = g + 1 := ⟨f1 - 1, by omega⟩
            obtain ⟨g2, rfl⟩ : ∃ g, f2 = g + 1 := ⟨f2 - 1, by omega⟩
            have hs1 := strip_render_cons k1 t rest1 tr1 hgt1
            have hs2 := strip_render_cons k2 t r2 tr2 hgt2
            have hbo1 := matchBinOp_tok t (render rest1 tr1) hgt1
            have hbo2 := matchBinOp_tok t (render r2 tr2) hgt2
            cases hbp : t.binPair with
            | none =>
                refine ⟨.nil, (k1, t) :: rest1, (k2, t) :: r2, ?_, ?_, hrel, hg1, hg2,
                  le_refl _⟩
                · simp [matchOpAtoms, hs1, hbo1, hbp]
                · simp [matchOpAtoms, hs2, hbo2, hbp]
            | some opP =>
                rcases ihA rest1 r2 tr1 tr2 g1 g2 hlen1 hrel' hg1' hg2'
                    (by simp only [List.length_cons] at hf1; omega)
                    (by simp only [List.length_cons] at hf2; omega) with
                  ⟨hn1, hn2⟩ | ⟨aps, u1, u2, ha1, ha2, hrelu, hgu1, hgu2, hlu⟩
                · refine ⟨.nil, (k1, t) :: rest1, (k2, t) :: r2, ?_, ?_, hrel, hg1, hg2,
                    le_refl _⟩
                  · simp [matchOpAtoms, hs1, hbo1, hbp, hn1]
                  · simp [matchOpAtoms, hs2, hbo2, hbp, hn2]
                · rcases ihO u1 u2 tr1 tr2 g1 g2 (by omega) hrelu hgu1 hgu2
                      (by simp only [List.length_cons] at hf1; omega)
                      (by simp only [List.length_cons] at hf2; omega) with
                    ⟨ps, w1, w2, ho1, ho2, hrelw, hgw1, hgw2, hlw⟩
                  refine ⟨.cons opP (aps.append ps), w1, w2, ?_, ?_, hrelw, hgw1, hgw2,
                    by simp only [List.length_cons]; omega⟩
                  · simp [matchOpAtoms, hs1, hbo1, hbp, ha1, ho1]
                  · simp [matchOpAtoms, hs2, hbo2, hbp, ha2, ho2]
      exact ⟨hPr, hAt, hOp, hEx⟩

theorem matchEquation_spacing (ss1 ss2 : List (Nat × Tok)) (tr1 tr2 f1 f2 : Nat)
    (hrel : TokRel ss1 ss2) (hg1 : goodToks ss1 = true) (hg2 : goodToks ss2 = true)
    (hf1 : 4 * ss1.length + 4 ≤ f1) (hf2 : 4 * ss1.length + 4 ≤ f2) :
    matchEquation f1 (render ss1 tr1) = matchEquation f2 (render ss2 tr2) := by
  obtain ⟨hP, hA, hO, hE⟩ := spacingSim ss1.length
  rcases hE ss1 ss2 tr1 tr2 f1 f2 (le_refl _) hrel hg1 hg2 hf1 hf2 with
    ⟨hn1, hn2⟩ | ⟨ps, u1, u2, he1, he2, hrelu, hgu1, hgu2, hlu⟩
  · simp [matchEquation, hn1, hn2]
  · cases u1 with
    | nil =>
        obtain rfl : u2 = [] := tokRel_nil _ hrelu
        simp [matchEquation, he1, he2, strip_render_nil]
    | cons b v1 =>
        obtain ⟨k', t'⟩ := b
        obtain ⟨k2', v2, rfl, hrelv⟩ := tokRel_cons k' t' v1 u2 hrelu
        have h1' := strip_render_cons k' t' v1 tr1 (goodToks_head _ _ _ hgu1)
        have h2' := strip_render_cons k2' t' v2 tr2 (goodToks_head _ _ _ hgu2)
        obtain ⟨c1, cs1, hch⟩ : ∃ c cs0, t'.chars = c :: cs0 := by
          cases t' <;> exact ⟨_, _, rfl⟩
        rw [hch] at h1' h2'
        simp [matchEquation, he1, he2, h1', h2']

theorem processLine_spacing (ss1 ss2 : List (Nat × Tok)) (tr1 tr2 : Nat)
    (hrel : TokRel ss1 ss2) (hg1 : goodToks ss1 = true) (hg2 : goodToks ss2 = true) :
    processLine (String.mk (render ss1 tr1)) = processLine (String.mk (render ss2 tr2)) := by
  have hlen2 := tokRel_length ss1 ss2 hrel
  have hr1 := length_le_render ss1 tr1
  have hr2 := length_le_render ss2 tr2
  have heq : calculatorParse (String.mk (render ss1 tr1)) =
      calculatorParse (String.mk (render ss2 tr2)) := by
    show matchEquation (4 * (String.mk (render ss1 tr1)).length + 8) (render ss1 tr1) =
      matchEquation (4 * (String.mk (render ss2 tr2)).length + 8) (render ss2 tr2)
    have hl1 : (String.mk (render ss1 tr1)).length = (render ss1 tr1).length := rfl
    have hl2 : (String.mk (render ss2 tr2)).length = (render ss2 tr2).length := rfl
    refine matchEquation_spacing ss1 ss2 tr1 tr2 _ _ hrel hg1 hg2 ?_ ?_ <;> omega
  unfold processLine
  rw [heq]

theorem skipSpaces_decomp (cs : List Char) :
    ∃ pre, cs = pre ++ skipSpaces cs ∧ ∀ c ∈ pre, c = ' ' := by
  induction cs with
  | nil => exact ⟨[], rfl, by simp⟩
  | cons c t ih =>
      by_cases hc : c = ' '
      · subst hc
        obtain ⟨pre, heq, hall⟩ := ih
        refine ⟨' ' :: pre, ?_, ?_⟩
        · show ' ' :: t = ' ' :: pre ++ skipSpaces (' ' :: t)
          have hs : skipSpaces (' ' :: t) = skipSpaces t := by simp [skipSpaces]
          rw [hs]
          simpa using heq
        · intro c hc
          rcases List.mem_cons.mp hc with h | h
          · exact h
          · exact hall c h
      · refine ⟨[], ?_, by simp⟩
        simp [skipSpaces_cons_of_ne c t hc]

theorem skipSpaces_nil_all (cs : List Char) (h : skipSpaces cs = []) :
    ∀ c ∈ cs, c = ' ' := by
  induction cs with
  | nil => simp
  | cons c t ih =>
      by_cases hc : c = ' '
      · subst hc
        have hs : skipSpaces (' ' :: t) = skipSpaces t := by simp [skipSpaces]
        rw [hs] at h
        intro c hm
        rcases List.mem_cons.mp hm with h1 | h1
        · exact h1
        · exact ih h c h1
      · rw [skipSpaces_cons_of_ne c t hc] at h
        exact absurd h (by simp)

theorem takeDigits_decomp (cs : List Char) :
    cs = (takeDigits cs).1 ++ (takeDigits cs).2 ∧
      ∀ c ∈ (takeDigits cs).1, c.isDigit = true := by
  induction cs with
  | nil => simp [takeDigits]
  | cons c t ih =>
      by_cases hc : c.isDigit = true
      · refine ⟨?_, ?_⟩
        · simp only [takeDigits, hc, if_true, List.cons_append]
          exact congrArg (c :: ·) ih.1
        · intro x hx
          simp only [takeDigits, hc, if_true] at hx
          rcases List.mem_cons.mp hx with h1 | h1
          · subst h1; exact hc
          · exact ih.2 x h1
      · simp only [Bool.not_eq_true] at hc
        simp [takeDigits, hc]

theorem matchInteger_decomp (cs : List Char) (p : Pair) (rest : List Char)
    (h : matchInteger cs = some (p, rest)) :
    ∃ pre, cs = pre ++ rest ∧ ∀ c ∈ pre, isCalcChar c = true := by
  unfold matchInteger at h
  split at h
  · exact absurd h (by simp)
  · rename_i d ds r heq
    simp only [Option.some.injEq, Prod.mk.injEq] at h
    obtain ⟨-, rfl⟩ := h
    obtain ⟨hdc, hdig⟩ := takeDigits_decomp cs
    rw [heq] at hdc hdig
    refine ⟨d :: ds, hdc, ?_⟩
    intro c hc
    have := hdig c hc
    simp [isCalcChar, this]

theorem matchBinOp_decomp (cs : List Char) (p : Pair) (rest : List Char)
    (h : matchBinOp cs = some (p, rest)) :
    ∃ pre, cs = pre ++ rest ∧ ∀ c ∈ pre, isCalcChar c = true := by
  unfold matchBinOp at h
  split at h <;>
    first
      | (simp only [Option.some.injEq, Prod.mk.injEq] at h
         obtain ⟨-, rfl⟩ := h
         exact ⟨[_], rfl, by intro c hc; simp at hc; subst hc; decide⟩)
      | exact absurd h (by simp)

theorem matcher_consume (fuel : Nat) :
    (∀ cs p rest, matchPrimary fuel cs = some (p, rest) →
      ∃ pre, cs = pre ++ rest ∧ ∀ c ∈ pre, isCalcChar c = true) ∧
    (∀ cs ps rest, matchAtom fuel cs = some (ps, rest) →
      ∃ pre, cs = pre ++ rest ∧ ∀ c ∈ pre, isCalcChar c = true) ∧
    (∀ cs ps rest, matchOpAtoms fuel cs = some (ps, rest) →
      ∃ pre, cs = pre ++ rest ∧ ∀ c ∈ pre, isCalcChar c = true) ∧
    (∀ cs ps rest, matchExprRule fuel cs = some (ps, rest) →
      ∃ pre, cs = pre ++ rest ∧ ∀ c ∈ pre, isCalcChar c = true) := by
  induction fuel with
  | zero =>
      refine ⟨?_, ?_, ?_, ?_⟩ <;> intro cs a b h <;>
        simp [matchPrimary, matchAtom, matchOpAtoms, matchExprRule] at h
  | succ fuel ih =>
      obtain ⟨ihP, ihA, ihO, ihE⟩ := ih
      refine ⟨?_, ?_, ?_, ?_⟩
      · intro cs p rest h
        simp only [matchPrimary] at h
        split at h
        · rename_i p0 r0 hmi
          simp only [Option.some.injEq, Prod.mk.injEq] at h
          obtain ⟨-, rfl⟩ := h
          exact matchInteger_decomp cs p0 _ hmi
        · rename_i hmi
          split at h
          · rename_i cs1
            split at h
            · exact absurd h (by simp)
            · rename_i ps0 cs2 hme
              split at h
              · rename_i cs3 hsk
                simp only [Option.some.injEq, Prod.mk.injEq] at h
                obtain ⟨-, rfl⟩ := h
                obtain ⟨preE, heqE, hallE⟩ := ihE _ ps0 cs2 hme
                obtain ⟨preS1, heqS1, hallS1⟩ := skipSpaces_decomp cs1
                obtain ⟨preS2, heqS2, hallS2⟩ := skipSpaces_decomp cs2
                refine ⟨'(' :: (preS1 ++ preE ++ preS2 ++ [')']), ?_, ?_⟩
                · conv_lhs => rw [heqS1, heqE, heqS2, hsk]
                  simp
                · intro c hc
                  rcases List.mem_cons.mp hc with rfl | hc
                  · decide
                  rcases List.mem_append.mp hc with hc | hc
                  · rcases List.mem_append.mp hc with hc | hc
                    · rcases List.mem_append.mp hc with hc | hc
                      · rw [hallS1 c hc]
                        decide
                      · exact hallE c hc
                    · rw [hallS2 c hc]
                      decide
                  · simp only [List.mem_singleton] at hc
                    subst hc
                    decide
              · exact absurd h (by simp)
          · exact absurd h (by simp)
      · intro cs ps rest h
        simp only [matchAtom] at h
        split at h
        · rename_i cs1
          split at h
          · exact absurd h (by simp)
          · rename_i p0 cs2 hmp
            simp only [Option.some.injEq, Prod.mk.injEq] at h
            obtain ⟨-, rfl⟩ := h
            obtain ⟨preP, heqP, hallP⟩ := ihP _ p0 cs2 hmp
            obtain ⟨preS, heqS, hallS⟩ := skipSpaces_decomp cs1
            refine ⟨'-' :: (preS ++ preP), ?_, ?_⟩
            · conv_lhs => rw [heqS, heqP]
              simp
            · intro c hc
              rcases List.mem_cons.mp hc with rfl | hc
              · decide
              rcases List.mem_append.mp hc with hc | hc
              · rw [hallS c hc]
                decide
              · exact hallP c hc
        · split at h
          · exact absurd h (by simp)
          · rename_i p0 r0 hmp
            simp only [Option.some.injEq, Prod.mk.injEq] at h
            obtain ⟨-, rfl⟩ := h
            exact ihP _ p0 _ hmp
      · intro cs ps rest h
        simp only [matchOpAtoms] at h
        split at h
        · simp only [Option.some.injEq, Prod.mk.injEq] at h
          obtain ⟨-, rfl⟩ := h
          exact ⟨[], rfl, by simp⟩
        · rename_i opP cs1 hbo
          split at h
          · simp only [Option.some.injEq, Prod.mk.injEq] at h
            obtain ⟨-, rfl⟩ := h
            exact ⟨[], rfl, by simp⟩
          · rename_i aps cs2 hma
            split at h
            · exact absurd h (by simp)
            · rename_i ps2 cs3 hmo
              simp only [Option.some.injEq, Prod.mk.injEq] at h
              obtain ⟨-, rfl⟩ := h
              obtain ⟨preB, heqB, hallB⟩ := matchBinOp_decomp _ opP cs1 hbo
              obtain ⟨preA, heqA, hallA⟩ := ihA _ aps cs2 hma
              obtain ⟨preO, heqO, hallO⟩ := ihO _ ps2 cs3 hmo
              obtain ⟨preS0, heqS0, hallS0⟩ := skipSpaces_decomp cs
              obtain ⟨preS1, heqS1, hallS1⟩ := skipSpaces_decomp cs1
              refine ⟨preS0 ++ preB ++ preS1 ++ preA ++ preO, ?_, ?_⟩
              · conv_lhs => rw [heqS0, heqB, heqS1, heqA, heqO]
                simp
              · intro c hc
                rcases List.mem_append.mp hc with hc | hc
                · rcases List.mem_append.mp hc with hc | hc
                  · rcases List.mem_append.mp hc with hc | hc
                    · rcases List.mem_append.mp hc with hc | hc
                      · rw [hallS0 c hc]
                        decide
                      · exact hallB c hc
                    · rw [hallS1 c hc]
                      decide
                  · exact hallA c hc
                · exact hallO c hc
      · intro cs ps rest h
        simp only [matchExprRule] at h
        split at h
        · exact absurd h (by simp)
        · rename_i aps cs1 hma
          split at h
          · exact absurd h (by simp)
          · rename_i ps2 cs2 hmo
            simp only [Option.some.injEq, Prod.mk.injEq] at h
            obtain ⟨-, rfl⟩ := h
            obtain ⟨preA, heqA, hallA⟩ := ihA _ aps cs1 hma
            obtain ⟨preO, heqO, hallO⟩ := ihO _ ps2 cs2 hmo
            refine ⟨preA ++ preO, ?_, ?_⟩
            · conv_lhs => rw [heqA, heqO]
              simp
            · intro c hc
              rcases List.mem_append.mp hc with hc | hc
              · exact hallA c hc
              · exact hallO c hc

/-- A successful `equation` match consumes only grammar characters: every
character of the line is a digit, an operator, a parenthesis, or a space. -/
theorem matchEquation_calc_chars (fuel : Nat) (cs : List Char) (ps : PairList)
    (h : matchEquation fuel cs = some ps) : ∀ c ∈ cs, isCalcChar c = true := by
  unfold matchEquation at h
  split at h
  · exact absurd h (by simp)
  · rename_i ps0 cs1 hme
    split at h
    · rename_i hsk
      obtain ⟨preE, heqE, hallE⟩ := (matcher_consume fuel).2.2.2 _ ps0 cs1 hme
      obtain ⟨preS, heqS, hallS⟩ := skipSpaces_decomp cs
      have hcs1 : ∀ c ∈ cs1, c = ' ' := skipSpaces_nil_all cs1 hsk
      intro c hc
      rw [heqS] at hc
      rcases List.mem_append.mp hc with hc | hc
      · rw [hallS c hc]
        decide
      · rw [heqE] at hc
        rcases List.mem_append.mp hc with hc | hc
        · exact hallE c hc
        · rw [hcs1 c hc]
          decide
    · exact absurd h (by simp)

/-- Any line containing a whitespace character other than the literal
space is rejected by the grammar: only the space is in the `WHITESPACE`
rule and no token contains a tab, carriage return or line feed. -/
theorem processLine_nonspace_ws (line : String) (c : Char) (hc : c ∈ line.data)
    (hw : c.isWhitespace = true) (hne : c ≠ ' ') : processLine line = .parseFailed := by
  have hcalc : isCalcChar c = false := by
    simp only [Char.isWhitespace, Bool.or_eq_true, decide_eq_true_eq] at hw
    rcases hw with ((h | h) | h) | h
    · exact absurd h hne
    · subst h; decide
    · subst h; decide
    · subst h; decide
  cases hcp : calculatorParse line with
  | none => simp [processLine, hcp]
  | some ps =>
      exfalso
      unfold calculatorParse at hcp
      have := matchEquation_calc_chars _ _ _ hcp c hc
      rw [this] at hcalc
      exact absurd hcalc (by simp)

/-- C7: only the literal space character is insignificant between tokens.
Generally: any two renderings of the same token stream with different
spacing (consecutive digit runs kept apart, which any otherwise valid line
satisfies, since the grammar never puts two integers side by side) process
to the identical outcome, and any line containing a non-space whitespace
character (tab, carriage return, line feed) anywhere is rejected as a
grammar mismatch; in particular `"  1 + 2 "` and its respacings evaluate
to 3 while a tab between tokens is rejected. -/
theorem C7_space_only_whitespace :
    (∀ (ss1 ss2 : List (Nat × Tok)) (tr1 tr2 : Nat),
      TokRel ss1 ss2 → goodToks ss1 = true → goodToks ss2 = true →
      processLine (String.mk (render ss1 tr1)) =
        processLine (String.mk (render ss2 tr2))) ∧
    (∀ (line : String) (c : Char), c ∈ line.data → c.isWhitespace = true → c ≠ ' ' →
      processLine line = .parseFailed) ∧
    processLine "  1 + 2 " = .result 3 ∧
    processLine "1 + 2" = .result 3 ∧
    processLine "1+2" = .result 3 ∧
    processLine "1  +  2" = .result 3 ∧
    processLine "1\t+ 2" = .parseFailed ∧
    processLine "1 +\t2" = .parseFailed :=
  ⟨processLine_spacing, processLine_nonspace_ws, by decide, by decide, by decide,
    by decide, by decide, by decide⟩

/-- Witness for C7's theorem: the token stream of `1+2` rendered with no
spaces and rendered as `"  1 + 2 "` process identically, and the tab line
`"1\t+2"` is rejected. -/
theorem C7_witness :
    processLine (String.mk (render
        [(0, Tok.num '1' []), (0, Tok.plus), (0, Tok.num '2' [])] 0)) =
      processLine (String.mk (render
        [(2, Tok.num '1' []), (1, Tok.plus), (1, Tok.num '2' [])] 1)) ∧
    processLine "1\t+2" = LineOutcome.parseFailed :=
  ⟨C7_space_only_whitespace.1 _ _ 0 1 rfl (by decide) (by decide),
   C7_space_only_whitespace.2.1 "1\t+2" '\t' (by decide) (by decide) (by decide)⟩

/-- C8: the evaluator's `/` is truncating division and `%` the matching
remainder: for all `i32` values `a`, `b` with `b ≠ 0`, whenever the
evaluation of `(a/b)*b + a%b` succeeds (i.e. none of the intermediate
operations overflows), its result is exactly `a`. The concrete lines
`"(0-7)/2"` and `"(0-7)%2"` pin down truncation toward zero (`-3`, not
`-4`) and the dividend-signed remainder (`-1`, not `1`). -/
theorem C8_truncating_divmod_identity :
    (∀ (a b : Int), inRangeI32 a = true → inRangeI32 b = true → b ≠ 0 →
      ∀ r : Int, (divmodTree a b).evaluate = .ok r → r = a) ∧
    processLine "(0-7)/2" = .result (-3) ∧
    processLine "(0-7)%2" = .result (-1) := by
  refine ⟨?_, by decide, by decide⟩
  intro a b ha hb hbne r h
  have key : a.tdiv b * b + a.tmod b = a := by
    rw [Int.mul_comm]
    exact Int.tdiv_add_tmod a b
  simp only [divmodTree, Expr.evaluate, bind, Except.bind, checkedI32, hbne, if_false,
    ite_false] at h
  split_ifs at h <;> simp_all
  all_goals (split_ifs at h <;> simp_all)

/-- Witness for C8's theorem at `a = 7`, `b = 3` (evaluation succeeds and
returns `7 = a`). -/
theorem C8_witness :
    (divmodTree 7 3).evaluate = .ok 7 ∧ (7 : Int) = 7 :=
  ⟨rfl, C8_truncating_divmod_identity.1 7 3 (by decide) (by decide) (by decide) 7 rfl⟩

/-- C9: the claim as frozen quantifies over every input line, but a line
whose processing panics (e.g. `"5/0"`) aborts the process: submitting it
twice yields one outcome for the first copy and none at all for the
second, not identical output both times. -/
theorem C9_counterexample :
    runLines ["5/0", "5/0"] = [LineOutcome.panicked "attempt to divide by zero"] ∧
    (runLines ["5/0", "5/0"]).length = 1 :=
  ⟨by decide, by decide⟩

/-- C9 (amended): processing a line is a pure function of the line, so for
every line whose processing does not panic, submitting it twice in
sequence produces the identical outcome both times; there is no cross-line
state. -/
theorem C9_idempotent_no_cross_line_state :
    (∀ (l : String) (o : LineOutcome), processLine l = o →
      (∀ m, o ≠ .panicked m) → runLines [l, l] = [o, o]) ∧
    runLines ["1+1", "1+1"] = [.result 2, .result 2] := by
  refine ⟨?_, by decide⟩
  intro l o h hnp
  cases o with
  | result n => simp [runLines, h]
  | parseFailed => simp [runLines, h]
  | panicked m => exact absurd rfl (hnp m)

/-- Witness for C9's theorem at the line `"2+2"`. -/
theorem C9_witness :
    runLines ["2+2", "2+2"] = [LineOutcome.result 4, LineOutcome.result 4] :=
  C9_idempotent_no_cross_line_state.1 "2+2" (.result 4) (by decide)
    (fun m h => LineOutcome.noConfusion h)

/-- The digit run returned by `takeDigits` contains only digits. -/
theorem takeDigits_all (cs : List Char) :
    (takeDigits cs).1.all (fun c => c.isDigit) = true := by
  induction cs with
  | nil => simp [takeDigits]
  | cons c rest ih =>
      by_cases hc : c.isDigit = true <;> simp [takeDigits, hc, ih]

/-- A pair matched by the `integer` rule is well-formed. -/
theorem matchInteger_good (cs : List Char) (p : Pair) (rest : List Char)
    (h : matchInteger cs = some (p, rest)) : p.good = true := by
  unfold matchInteger at h
  split at h
  · exact absurd h (by simp)
  · rename_i d ds r heq
    have hall := takeDigits_all cs
    rw [heq] at hall
    simp only [Option.some.injEq, Prod.mk.injEq] at h
    obtain ⟨rfl, -⟩ := h
    simpa [Pair.good, isDigitString] using hall

/-- Well-formedness distributes over pair-sequence concatenation. -/
theorem good_append (xs ys : PairList) :
    (xs.append ys).good = (xs.good && ys.good) := by
  match xs with
  | .nil => simp [PairList.append, PairList.good]
  | .cons p ps =>
      simp [PairList.append, PairList.good, good_append ps ys, Bool.and_assoc]

/-- A pair matched by `bin_op` is well-formed. -/
theorem matchBinOp_good (cs : List Char) (p : Pair) (rest : List Char)
    (h : matchBinOp cs = some (p, rest)) : p.good = true := by
  unfold matchBinOp at h
  split at h <;>
    first
      | (simp only [Option.some.injEq, Prod.mk.injEq] at h
         obtain ⟨rfl, -⟩ := h
         simp [Pair.good])
      | exact absurd h (by simp)

/-- Every pair the grammar matcher emits is well-formed: in particular,
each `integer` pair holds a nonempty bare digit run. -/
theorem matcher_good (fuel : Nat) :
    (∀ cs p rest, matchPrimary fuel cs = some (p, rest) → p.good = true) ∧
    (∀ cs ps rest, matchAtom fuel cs = some (ps, rest) → ps.good = true) ∧
    (∀ cs ps rest, matchOpAtoms fuel cs = some (ps, rest) → ps.good = true) ∧
    (∀ cs ps rest, matchExprRule fuel cs = some (ps, rest) → ps.good = true) := by
  induction fuel with
  | zero =>
      refine ⟨?_, ?_, ?_, ?_⟩ <;> intro cs a b h <;>
        simp [matchPrimary, matchAtom, matchOpAtoms, matchExprRule] at h
  | succ fuel ih =>
      obtain ⟨ihP, ihA, ihO, ihE⟩ := ih
      refine ⟨?_, ?_, ?_, ?_⟩
      · intro cs p rest h
        simp only [matchPrimary] at h
        split at h
        · rename_i p0 r0 hmi
          simp only [Option.some.injEq, Prod.mk.injEq] at h
          obtain ⟨rfl, -⟩ := h
          exact matchInteger_good cs _ _ hmi
        · rename_i hmi
          split at h
          · rename_i cs1
            split at h
            · exact absurd h (by simp)
            · rename_i ps0 cs2 hme
              split at h
              · rename_i cs3
                simp only [Option.some.injEq, Prod.mk.injEq] at h
                obtain ⟨rfl, -⟩ := h
                simpa [Pair.good] using ihE _ ps0 cs2 hme
              · exact absurd h (by simp)
          · exact absurd h (by simp)
      · intro cs ps rest h
        simp only [matchAtom] at h
        split at h
        · rename_i cs1
          split at h
          · exact absurd h (by simp)
          · rename_i p0 cs2 hmp
            simp only [Option.some.injEq, Prod.mk.injEq] at h
            obtain ⟨rfl, -⟩ := h
            simpa [PairList.good, Pair.good] using ihP _ p0 cs2 hmp
        · split at h
          · exact absurd h (by simp)
          · rename_i p0 r0 hmp
            simp only [Option.some.injEq, Prod.mk.injEq] at h
            obtain ⟨rfl, -⟩ := h
            simpa [PairList.good] using ihP _ p0 r0 hmp
      · intro cs ps rest h
        simp only [matchOpAtoms] at h
        split at h
        · simp only [Option.some.injEq, Prod.mk.injEq] at h
          obtain ⟨rfl, -⟩ := h
          simp [PairList.good]
        · rename_i opP cs1 hbo
          split at h
          · simp only [Option.some.injEq, Prod.mk.injEq] at h
            obtain ⟨rfl, -⟩ := h
            simp [PairList.good]
          · rename_i aps cs2 hma
            split at h
            · exact absurd h (by simp)
            · rename_i ps2 cs3 hmo
              simp only [Option.some.injEq, Prod.mk.injEq] at h
              obtain ⟨rfl, -⟩ := h
              simp [PairList.good, good_append, matchBinOp_good _ _ _ hbo,
                ihA _ aps cs2 hma, ihO _ ps2 cs3 hmo]
      · intro cs ps rest h
        simp only [matchExprRule] at h
        split at h
        · exact absurd h (by simp)
        · rename_i aps cs1 hma
          split at h
          · exact absurd h (by simp)
          · rename_i ps2 cs2 hmo
            simp only [Option.some.injEq, Prod.mk.injEq] at h
            obtain ⟨rfl, -⟩ := h
            simp [good_append, ihA _ aps cs1 hma, ihO _ ps2 cs2 hmo]

/-- The pair sequence of a successful `equation` match is well-formed. -/
theorem matchEquation_good (fuel : Nat) (cs : List Char) (ps : PairList)
    (h : matchEquation fuel cs = some ps) : ps.good = true := by
  unfold matchEquation at h
  split at h
  · exact absurd h (by simp)
  · rename_i ps0 cs1 hme
    split at h
    · simp only [Option.some.injEq] at h
      subst h
      exact (matcher_good fuel).2.2.2 _ ps0 cs1 hme
    · exact absurd h (by simp)

/-- Converting a bare digit string with `str::parse::<i32>` can only yield
a non-negative value. -/
theorem parseI32_digits_nonneg (s : String) (v : Int)
    (hd : isDigitString s = true) (hp : parseI32 s = some v) : 0 ≤ v := by
  simp only [isDigitString, Bool.and_eq_true, Bool.not_eq_true'] at hd
  obtain ⟨hne, hall⟩ := hd
  unfold parseI32 at hp
  split at hp
  · rename_i t heq
    rw [heq] at hall
    simp only [List.all_cons, Bool.and_eq_true] at hall
    exact absurd hall.1 (by decide)
  · rename_i t heq
    rw [heq] at hall
    simp only [List.all_cons, Bool.and_eq_true] at hall
    exact absurd hall.1 (by decide)
  · unfold parseI32Digits at hp
    split at hp
    · exact absurd hp (by simp)
    · simp only [] at hp
      split at hp
      · simp only [Option.some.injEq] at hp
        subst hp
        simp
      · exact absurd hp (by simp)

/-- The Pratt parser, fed well-formed pairs, builds trees whose `Integer`
nodes are all non-negative (negative values arise only via `UnaryMinus`). -/
theorem parse_nonneg (fuel : Nat) :
    (∀ minPrec toks e rest, PairList.good toks = true →
      parseBp fuel minPrec toks = .ok (e, rest) →
      e.nonnegLits = true ∧ rest.good = true) ∧
    (∀ toks e rest, PairList.good toks = true →
      parsePrimary fuel toks = .ok (e, rest) →
      e.nonnegLits = true ∧ rest.good = true) ∧
    (∀ minPrec lhs toks e rest, PairList.good toks = true → lhs.nonnegLits = true →
      parseLoop fuel minPrec lhs toks = .ok (e, rest) →
      e.nonnegLits = true ∧ rest.good = true) ∧
    (∀ toks e, PairList.good toks = true → parseAllFuel fuel toks = .ok e →
      e.nonnegLits = true) := by
  induction fuel with
  | zero =>
      refine ⟨?_, ?_, ?_, ?_⟩ <;> intros <;>
        simp_all [parseBp, parsePrimary, parseLoop, parseAllFuel]
  | succ fuel ih =>
      obtain ⟨ihB, ihP, ihL, ihA⟩ := ih
      refine ⟨?_, ?_, ?_, ?_⟩
      · intro minPrec toks e rest hg h
        simp only [parseBp] at h
        split at h
        · exact absurd h (by simp)
        · rename_i lhs rest0 hpp
          obtain ⟨h1, h2⟩ := ihP toks lhs rest0 hg hpp
          exact ihL minPrec lhs rest0 e rest h2 h1 h
      · intro toks e rest hg h
        simp only [parsePrimary] at h
        split at h
        · rename_i rest0
          split at h
          · exact absurd h (by simp)
          · rename_i e0 rest1 hbp
            simp only [Except.ok.injEq, Prod.mk.injEq] at h
            obtain ⟨rfl, rfl⟩ := h
            have hg0 : PairList.good rest0 = true := by
              simp_all [PairList.good, Pair.good]
            obtain ⟨hne, hg1⟩ := ihB unaryMinusPrec rest0 e0 rest1 hg0 hbp
            exact ⟨by simpa [Expr.nonnegLits] using hne, hg1⟩
        · rename_i s rest0
          split at h
          · rename_i v hv
            simp only [Except.ok.injEq, Prod.mk.injEq] at h
            obtain ⟨rfl, rfl⟩ := h
            have hds : isDigitString s = true := by
              simp_all [PairList.good, Pair.good]
            have hnn := parseI32_digits_nonneg s v hds hv
            refine ⟨by simpa [Expr.nonnegLits] using hnn, ?_⟩
            simp_all [PairList.good]
          · exact absurd h (by simp)
        · rename_i inner rest0
          split at h
          · exact absurd h (by simp)
          · rename_i e0 hae
            simp only [Except.ok.injEq, Prod.mk.injEq] at h
            obtain ⟨rfl, rfl⟩ := h
            have hgi : PairList.good inner = true := by
              simp_all [PairList.good, Pair.good]
            refine ⟨ihA inner e0 hgi hae, ?_⟩
            simp_all [PairList.good]
        · exact absurd h (by simp)
      · intro minPrec lhs toks e rest hg hl h
        simp only [parseLoop] at h
        split at h
        · simp only [Except.ok.injEq, Prod.mk.injEq] at h
          obtain ⟨rfl, rfl⟩ := h
          exact ⟨hl, by simp [PairList.good]⟩
        · rename_i t rest0
          split at h
          · rename_i op p hop
            split at h
            · split at h
              · exact absurd h (by simp)
              · rename_i rhs rest1 hbp
                have hg0 : PairList.good rest0 = true := by
                  simp_all [PairList.good]
                obtain ⟨hr, hg1⟩ := ihB (p + 1) rest0 rhs rest1 hg0 hbp
                exact ihL minPrec (.BinOp lhs op rhs) rest1 e rest hg1
                  (by simp [Expr.nonnegLits, hl, hr]) h
            · simp only [Except.ok.injEq, Prod.mk.injEq] at h
              obtain ⟨rfl, rfl⟩ := h
              exact ⟨hl, hg⟩
          · simp only [Except.ok.injEq, Prod.mk.injEq] at h
            obtain ⟨rfl, rfl⟩ := h
            exact ⟨hl, hg⟩
      · intro toks e hg h
        simp only [parseAllFuel] at h
        split at h
        · exact absurd h (by simp)
        · rename_i e0 hok
          simp only [Except.ok.injEq] at h
          subst h
          exact (ihB 0 toks e0 .nil hg hok).1
        · exact absurd h (by simp)

/-- C10: every `Integer` node the parser constructs from grammar-matched
input is non-negative, because integer literals are bare digit runs with
no sign; the line `"-2147483648"` is therefore never parsed into a
negative `Integer`: its digit sequence `2147483648` exceeds `i32::MAX`,
so literal conversion panics instead. -/
theorem C10_integer_nodes_nonneg :
    (∀ (line : String) (ps : PairList) (e : Expr),
      calculatorParse line = some ps → parse_expr ps = .ok e →
      e.nonnegLits = true) ∧
    processLine "-2147483648" =
      .panicked "called Result::unwrap() on an Err value: ParseIntError" := by
  refine ⟨?_, by decide⟩
  intro line ps e hcp hpe
  have hg : ps.good = true := by
    unfold calculatorParse at hcp
    exact matchEquation_good _ _ _ hcp
  rw [parse_expr] at hpe
  exact (parse_nonneg _).2.2.2 ps e hg hpe

/-- Witness for C10's theorem at the line `"5"`. -/
theorem C10_witness :
    Expr.nonnegLits (Expr.Integer 5) = true :=
  C10_integer_nodes_nonneg.1 "5" (pl [Pair.integer "5"]) (Expr.Integer 5) (by decide) rfl
